import Mathlib

/-
Verification of the cache-coherency engine of a CI caching action
(rust-wasm-action).  The definitions below are a shallow embedding of
src/cache_cargo_home.rs and the path layer of src/node.rs; external
collaborators that are not part of the repository's sources (Node's
path/fs modules, the base64 and serde_json crates, the blob cache and
the GitHub-actions input API) are embedded from their documented
behaviour, and parts of the repository that are not under src/
(crate::Error, actions::cache::CacheEntry, actions::core::get_input,
crate::nonce, crate::fingerprinting) are modelled from the spec, as
marked on each definition.
-/

deriving instance DecidableEq for Except

namespace RustWasmAction

/-! ## Node path model (posix semantics of the path module used by src/node.rs) -/

/-- Split a character list on the separator character, keeping empty
segments, exactly as the character scan of the path module does. -/
def splitSlash : List Char → List (List Char)
  | [] => [[]]
  | c :: rest =>
    match splitSlash rest with
    | [] => [[]]
    | s :: ss => if c = '/' then [] :: s :: ss else (c :: s) :: ss

/-- Segment resolution of the path module (normalizeString): drops empty
and dot segments, resolves dot-dot against the accumulated result, and
keeps dot-dot segments only above a relative root.  The accumulator is
in reverse order. -/
def normSegsAux (allowAboveRoot : Bool) : List (List Char) → List (List Char) → List (List Char)
  | acc, [] => acc
  | acc, seg :: rest =>
    if seg = [] ∨ seg = ['.'] then normSegsAux allowAboveRoot acc rest
    else if seg = ['.', '.'] then
      match acc with
      | top :: accRest =>
        if top ≠ ['.', '.'] then normSegsAux allowAboveRoot accRest rest
        else if allowAboveRoot then normSegsAux allowAboveRoot (seg :: top :: accRest) rest
        else normSegsAux allowAboveRoot (top :: accRest) rest
      | [] =>
        if allowAboveRoot then normSegsAux allowAboveRoot [seg] rest
        else normSegsAux allowAboveRoot [] rest
    else normSegsAux allowAboveRoot (seg :: acc) rest

/-- Join resolved segments with the separator. -/
def joinSegs : List (List Char) → List Char
  | [] => []
  | [s] => s
  | s :: rest => s ++ '/' :: joinSegs rest

/-- Node's path.normalize (posix) on character lists. -/
def normalizeList (s : List Char) : List Char :=
  if s.isEmpty then ['.']
  else
    let isAbs : Bool := s.head? = some '/'
    let trailing : Bool := s.getLast? = some '/'
    let segs := (normSegsAux (!isAbs) [] (splitSlash s)).reverse
    let body := joinSegs segs
    if body.isEmpty then
      (if isAbs then ['/'] else if trailing then ['.', '/'] else ['.'])
    else
      (if isAbs then '/' :: body else body) ++ (if trailing then ['/'] else [])

/-- Node's path.normalize (posix). -/
def normalizeStr (s : String) : String := ⟨normalizeList s.data⟩

/-- Node's path.isAbsolute (posix). -/
def pathIsAbsolute (s : String) : Bool := s.data.head? = some '/'

/-- Node's path.join (posix) applied to two parts, as done by Path::push:
empty parts are skipped, the rest are separator-joined and normalized. -/
def nodeJoin (a b : String) : String :=
  if a = "" then (if b = "" then "." else normalizeStr b)
  else if b = "" then normalizeStr a
  else normalizeStr (a ++ "/" ++ b)

/-- Node's path.dirname (posix): strip the trailing separator run and the
last segment; with the quirks of the original scan (index zero is never a
cut point, and a root path with a cut at index one yields a double slash). -/
def nodeDirname (s : String) : String :=
  match s.data with
  | [] => "."
  | l =>
    let hasRoot : Bool := l.head? = some '/'
    let core := (l.reverse.dropWhile (fun c => c = '/')).reverse
    let afterSeg := core.reverse.dropWhile (fun c => c ≠ '/')
    match afterSeg with
    | [] => if hasRoot then "/" else "."
    | _ :: restRev =>
      match restRev.reverse with
      | [] => if hasRoot then "/" else "."
      | pre => if hasRoot ∧ pre = ['/'] then "//" else ⟨pre⟩

/-! ## The Path type of src/node.rs -/

/-- The Path wrapper of src/node.rs: a JavaScript string; every
construction site normalizes. -/
structure Path where
  inner : String
deriving DecidableEq

/-- Path::from (both the JsString and the str impl): normalize. -/
def Path.fromStr (s : String) : Path := ⟨normalizeStr s⟩

/-- Path::is_absolute. -/
def Path.isAbsolute (p : Path) : Bool := pathIsAbsolute p.inner

/-- Path::push: an absolute argument replaces the receiver wholesale,
otherwise the receiver and the argument are joined. -/
def Path.push (p q : Path) : Path :=
  if q.isAbsolute then ⟨q.inner⟩ else ⟨nodeJoin p.inner q.inner⟩

/-- Path::join: clone then push. -/
def Path.joinPath (p q : Path) : Path := p.push q

/-- Path::parent: Node's dirname. -/
def Path.parent (p : Path) : Path := ⟨nodeDirname p.inner⟩

/-! ## Error type and segment registry (src/cache_cargo_home.rs) -/

/-- Modelled from the spec: crate::Error is not under src/; section 7 of
the spec enumerates the error kinds used by the engine.  Only the
variants reachable from the embedded code appear: ParseCacheableItem
carries the offending token, Js carries a JavaScript error message
(path-mismatch and blob-cache failures), Serde is a sidecar
serialization failure and Io a filesystem failure. -/
inductive Err where
  | parseCacheableItem (tok : String)
  | js (msg : String)
  | serde
  | io (msg : String)
deriving DecidableEq

/-- The CacheType enum of src/cache_cargo_home.rs. -/
inductive CacheType where
  | Indices
  | Crates
  | GitRepos
deriving DecidableEq

/-- CacheType::short_name via the strum serialize attributes. -/
def shortName : CacheType → String
  | .Indices => "indices"
  | .Crates => "crates"
  | .GitRepos => "git-repos"

/-- CacheType::friendly_name. -/
def friendlyName : CacheType → String
  | .Indices => "Registry indices"
  | .Crates => "Crate files"
  | .GitRepos => "Git repositories"

/-- CacheType::from_str via the strum EnumString derive. -/
def cacheTypeFromStr (s : String) : Option CacheType :=
  if s = "indices" then some .Indices
  else if s = "crates" then some .Crates
  else if s = "git-repos" then some .GitRepos
  else none

/-- CacheType::relative_path, built with Path::from and Path::push as in
the source. -/
def relativePath : CacheType → Path
  | .Indices => (Path.fromStr "registry").push (Path.fromStr "index")
  | .Crates => (Path.fromStr "registry").push (Path.fromStr "cache")
  | .GitRepos => (Path.fromStr "git").push (Path.fromStr "db")

/-- The enumeration order of CacheType::iter from the EnumIter derive:
declaration order. -/
def registryOrder : List CacheType := [.Indices, .Crates, .GitRepos]

/-- find_cargo_home: the user home directory (supplied here as a string,
the value returned by Node's os.homedir) with ".cargo" pushed. -/
def findCargoHome (home : String) : Path :=
  (Path.fromStr home).push (Path.fromStr ".cargo")

/-- find_path: cargo home with the segment's relative path pushed. -/
def findPath (home : String) (ct : CacheType) : Path :=
  (findCargoHome home).push (relativePath ct)

/-- cached_folder_info_path: home/.cache/github-rust-actions/cached_folder_info/{short_name}.toml. -/
def cachedFolderInfoPath (home : String) (ct : CacheType) : Path :=
  ((((Path.fromStr home).push (Path.fromStr ".cache")).push
      (Path.fromStr "github-rust-actions")).push
      (Path.fromStr "cached_folder_info")).push
    (Path.fromStr (shortName ct ++ ".toml"))

/-! ## base64 (the base64 crate's encode_config with the URL_SAFE config,
which uses the URL-safe alphabet WITH padding) -/

/-- The URL-safe base64 alphabet. -/
def b64Char (n : Nat) : Char :=
  ("ABCDEFGHIJKLMNOPQRSTUVWXYZabcdefghijklmnopqrstuvwxyz0123456789-_").data.getD n 'A'

/-- Standard base64 grouping of bytes into sextet characters, padding the
final partial group with the pad character. -/
def b64EncodeGroups : List Nat → List Char
  | a :: b :: c :: rest =>
    b64Char (a / 4) :: b64Char (a % 4 * 16 + b / 16) ::
      b64Char (b % 16 * 4 + c / 64) :: b64Char (c % 64) :: b64EncodeGroups rest
  | [a, b] => [b64Char (a / 4), b64Char (a % 4 * 16 + b / 16), b64Char (b % 16 * 4), '=']
  | [a] => [b64Char (a / 4), b64Char (a % 4 * 16), '=', '=']
  | [] => []

/-- base64::encode_config(.., base64::URL_SAFE): URL-safe alphabet with
padding (the URL_SAFE constant of the base64 crate sets pad = true). -/
def base64UrlSafe (bytes : List Nat) : String := ⟨b64EncodeGroups bytes⟩

/-- The rendering the spec describes instead: URL-safe base64 WITHOUT
padding.  Defined only to compare the spec's words with the code. -/
def base64UrlSafeNoPad (bytes : List Nat) : String :=
  ⟨(b64EncodeGroups bytes).filter (fun c => c ≠ '=')⟩

/-! ## CacheEntry and build_cache_entry -/

/-- Modelled from the spec: actions::cache::CacheEntry is not under
src/; section 3 of the spec describes a CacheKey as a primary key plus
restore fallbacks, and section 6 gives the collaborator operations.  The
builder methods new/restore_key/path of the source are mirrored. -/
structure CacheEntry where
  primaryKey : String
  restoreKeys : List String
  paths : List String
deriving DecidableEq

/-- CacheEntry::new. -/
def CacheEntry.new (k : String) : CacheEntry := ⟨k, [], []⟩

/-- CacheEntry::restore_key: appends a fallback key. -/
def CacheEntry.restoreKey (e : CacheEntry) (k : String) : CacheEntry :=
  { e with restoreKeys := e.restoreKeys ++ [k] }

/-- CacheEntry::path: appends a path. -/
def CacheEntry.addPath (e : CacheEntry) (p : Path) : CacheEntry :=
  { e with paths := e.paths ++ [p.inner] }

/-- build_cache_entry: primary key "{friendly_name} - {nonce}" with the
nonce bytes (produced by crate::nonce::build_nonce(8), modelled as an
oracle input since crate::nonce is not under src/) rendered by
base64::encode_config(.., URL_SAFE); the friendly name alone is the
restore key and the folder path the entry's path. -/
def buildCacheEntry (ct : CacheType) (path : Path) (nonce : List Nat) : CacheEntry :=
  (((CacheEntry.new (friendlyName ct ++ " - " ++ base64UrlSafe nonce)).restoreKey
      (friendlyName ct)).addPath path)

/-! ## The sidecar record and its serde_json serialization

CachedFolderInfo is the two-field struct of src/cache_cargo_home.rs.
The save phase serializes it with serde_json::to_string_pretty and the
restore phase deserializes with serde_json::de::from_slice; both are
embedded below following serde_json's documented output format (pretty
printing with two-space indentation, the string escapes of its ESCAPE
table, u64 range checking on read).  The reader is the inverse grammar
on exactly the document layout the writer emits (this program only ever
reads sidecars it wrote itself). -/

/-- The sidecar record: absolute folder path and 64-bit fingerprint
(the u64 is carried as a Nat; deserialization enforces the u64 bound). -/
structure CachedFolderInfo where
  path : String
  fingerprint : Nat
deriving DecidableEq

/-- Lower-case hex digit, as in serde_json's HEX table. -/
def hexDigit (d : Nat) : Char :=
  if d < 10 then Char.ofNat (48 + d) else Char.ofNat (87 + d)

/-- serde_json's escape of one character inside a JSON string: quote and
backslash escaped, the five short control escapes, other control
characters as a four-digit unicode escape, everything else verbatim. -/
def escChar (c : Char) : List Char :=
  if c = '"' then ['\\', '"']
  else if c = '\\' then ['\\', '\\']
  else if c = Char.ofNat 8 then ['\\', 'b']
  else if c = Char.ofNat 9 then ['\\', 't']
  else if c = Char.ofNat 10 then ['\\', 'n']
  else if c = Char.ofNat 12 then ['\\', 'f']
  else if c = Char.ofNat 13 then ['\\', 'r']
  else if c.toNat < 32 then
    ['\\', 'u', '0', '0', hexDigit (c.toNat / 16), hexDigit (c.toNat % 16)]
  else [c]

/-- serde_json's JSON string body escape. -/
def escapeString (s : List Char) : List Char := s.flatMap escChar

/-- Decimal digit character. -/
def digitChar (d : Nat) : Char := Char.ofNat (48 + d)

/-- Little-endian decimal digits with explicit fuel (the fuel dominates
the digit count, keeping the recursion structural). -/
def renderNatAux : Nat → Nat → List Char
  | 0, _ => []
  | fuel + 1, n => if n = 0 then [] else digitChar (n % 10) :: renderNatAux fuel (n / 10)

/-- Decimal digits of a natural number, most significant first. -/
def renderNat (n : Nat) : List Char :=
  if n = 0 then ['0'] else (renderNatAux n n).reverse

/-- serde_json::to_string_pretty of a CachedFolderInfo: a two-space
indented object with the path field first, exactly as serde emits it for
the derive order of the struct. -/
def toJsonPretty (info : CachedFolderInfo) : String :=
  "\x7b\n  \"path\": \"" ++ (⟨escapeString info.path.data⟩ : String) ++
    "\",\n  \"fingerprint\": " ++ (⟨renderNat info.fingerprint⟩ : String) ++ "\n\x7d"

/-- Value of a hex digit character, either case. -/
def hexVal (c : Char) : Option Nat :=
  if '0' ≤ c ∧ c ≤ '9' then some (c.toNat - 48)
  else if 'a' ≤ c ∧ c ≤ 'f' then some (c.toNat - 87)
  else if 'A' ≤ c ∧ c ≤ 'F' then some (c.toNat - 55)
  else none

/-- The single-character JSON string escapes accepted by serde_json. -/
def unescapeChar (c : Char) : Option Char :=
  if c = '"' then some '"'
  else if c = '\\' then some '\\'
  else if c = '/' then some '/'
  else if c = 'b' then some (Char.ofNat 8)
  else if c = 'f' then some (Char.ofNat 12)
  else if c = 'n' then some (Char.ofNat 10)
  else if c = 'r' then some (Char.ofNat 13)
  else if c = 't' then some (Char.ofNat 9)
  else none

/-- Parse a JSON string body up to and including the closing quote,
undoing the escapes; rejects invalid escapes and non-scalar code points
as serde does. -/
def parseStringBody : List Char → Option (List Char × List Char)
  | [] => none
  | c :: rest =>
    if c = '"' then some ([], rest)
    else if c = '\\' then
      match rest with
      | [] => none
      | e :: rest2 =>
        if e = 'u' then
          match rest2 with
          | h1 :: h2 :: h3 :: h4 :: rest3 =>
            match hexVal h1, hexVal h2, hexVal h3, hexVal h4 with
            | some v1, some v2, some v3, some v4 =>
              let n := 4096 * v1 + 256 * v2 + 16 * v3 + v4
              if n < 55296 then
                match parseStringBody rest3 with
                | some (u, r) => some (Char.ofNat n :: u, r)
                | none => none
              else none
            | _, _, _, _ => none
          | _ => none
        else
          match unescapeChar e with
          | some d =>
            match parseStringBody rest2 with
            | some (u, r) => some (d :: u, r)
            | none => none
          | none => none
    else
      match parseStringBody rest with
      | some (u, r) => some (c :: u, r)
      | none => none

/-- Accumulate decimal digits. -/
def parseDigitsAux : Nat → List Char → Nat × List Char
  | acc, [] => (acc, [])
  | acc, c :: rest =>
    if c.isDigit then parseDigitsAux (10 * acc + (c.toNat - 48)) rest else (acc, c :: rest)

/-- Parse an unsigned decimal number (nonempty digit run). -/
def parseNumber (s : List Char) : Option (Nat × List Char) :=
  match s with
  | [] => none
  | c :: _ => if c.isDigit then some (parseDigitsAux 0 s) else none

/-- The literal document pieces around the two field values. -/
def jsonLitA : List Char := ("\x7b\n  \"path\": \"").data

/-- Literal between the path value and the fingerprint value. -/
def jsonLitB : List Char := (",\n  \"fingerprint\": ").data

/-- Literal closing the document. -/
def jsonLitC : List Char := ("\n\x7d").data

/-- Expect a literal prefix. -/
def parseLit : List Char → List Char → Option (List Char)
  | [], s => some s
  | _ :: _, [] => none
  | c :: lit, d :: s => if c = d then parseLit lit s else none

/-- serde_json::de::from_slice into CachedFolderInfo, on the document
layout to_string_pretty emits (field order and whitespace are fixed by
the writer); string escapes are undone and the fingerprint must fit in
a u64 or deserialization fails, as serde enforces for a u64 field. -/
def fromJsonFolderInfo (s : String) : Option CachedFolderInfo :=
  match parseLit jsonLitA s.data with
  | none => none
  | some r1 =>
    match parseStringBody r1 with
    | none => none
    | some (p, r2) =>
      match parseLit jsonLitB r2 with
      | none => none
      | some r3 =>
        match parseNumber r3 with
        | none => none
        | some (n, r4) =>
          if n < 18446744073709551616 then
            match parseLit jsonLitC r4 with
            | none => none
            | some r5 => if r5 = [] then some ⟨⟨p⟩, n⟩ else none
          else none

/-! ## Input parsing: get_types_to_cache -/

/-- Rust's char::is_whitespace: the Unicode scalar values with the
White_Space property. -/
def rustIsWhitespace (c : Char) : Bool :=
  ([0x09, 0x0A, 0x0B, 0x0C, 0x0D, 0x20, 0x85, 0xA0, 0x1680,
    0x2000, 0x2001, 0x2002, 0x2003, 0x2004, 0x2005, 0x2006, 0x2007,
    0x2008, 0x2009, 0x200A, 0x2028, 0x2029, 0x202F, 0x205F, 0x3000] : List Nat).contains c.toNat

/-- str::split_whitespace: maximal nonempty runs between whitespace. -/
def splitWhitespaceAux : List Char → List Char → List (List Char)
  | [], cur => if cur = [] then [] else [cur.reverse]
  | c :: rest, cur =>
    if rustIsWhitespace c then
      (if cur = [] then splitWhitespaceAux rest [] else cur.reverse :: splitWhitespaceAux rest [])
    else splitWhitespaceAux rest (c :: cur)

/-- str::split_whitespace on a string. -/
def splitWhitespace (s : String) : List String :=
  (splitWhitespaceAux s.data []).map (fun l => ⟨l⟩)

/-- Modelled from the spec: actions::core::get_input is not under src/;
per section 4.6 an absent or empty input selects all segments, so the
wrapper yields no value for an absent or empty raw input. -/
def getInput (raw : Option String) : Option String :=
  match raw with
  | none => none
  | some s => if s = "" then none else some s

/-- The token loop of get_types_to_cache: each token is parsed with
CacheType::from_str (an unknown token raises ParseCacheableItem
immediately) and inserted into the set; the accumulator is the set's
contents in first-insertion order. -/
def parseTypes : List String → List CacheType → Except Err (List CacheType)
  | [], acc => .ok acc
  | tok :: rest, acc =>
    match cacheTypeFromStr tok with
    | none => .error (.parseCacheableItem tok)
    | some ct => parseTypes rest (if ct ∈ acc then acc else acc ++ [ct])

/-- The contents of the HashSet built by get_types_to_cache, before
iteration: for an absent input every CacheType (in CacheType::iter
order), otherwise the deduplicated parsed tokens. -/
def coreSelect (raw : Option String) : Except Err (List CacheType) :=
  match getInput raw with
  | none => .ok registryOrder
  | some s => parseTypes (splitWhitespace s) []

/-- get_types_to_cache: the HashSet is drained by into_iter, whose order
is arbitrary (std's RandomState is seeded per process); the drain order
is therefore a parameter, constrained in theorems to enumerate the set. -/
def getTypesToCache (setEnum : List CacheType → List CacheType)
    (raw : Option String) : Except Err (List CacheType) :=
  (coreSelect raw).map setEnum

/-- A legitimate HashSet iteration order: any function that enumerates
exactly the elements of the set it is given. -/
def ValidEnum (setEnum : List CacheType → List CacheType) : Prop :=
  ∀ l : List CacheType, l.Nodup → (setEnum l).Perm l

/-! ## The save phase (save_cargo_cache) -/

/-- Oracles for one run of the save phase: the raw cache-only input, the
home directory string, the fingerprint computed for each segment
(crate::fingerprinting is not under src/, so its result is an oracle),
the bytes read for each sidecar file, the blob-cache save outcome, the
nonce bytes drawn for each build_cache_entry call, and the HashSet
iteration order. -/
structure SaveEnv where
  homedir : String
  rawInput : Option String
  fp : CacheType → Except Err Nat
  readFileRes : String → Except Err String
  uploadRes : CacheType → Except Err Unit
  nonce : CacheType → List Nat
  setEnum : List CacheType → List CacheType

/-- The observable log/cache interactions of the save phase. -/
inductive SaveEvent where
  | infoUnchanged (path : String)
  | infoChanged (path : String) (oldFp newFp : Nat)
  | uploadRequest (entry : CacheEntry)
  | errorFailedSave (name : String) (e : Err)
  | infoSaved (name : String)
deriving DecidableEq

/-- build_cached_folder_info: fingerprint the segment folder and pair the
folder path string with the digest. -/
def buildCachedFolderInfo (home : String) (fp : CacheType → Except Err Nat)
    (ct : CacheType) : Except Err CachedFolderInfo :=
  (fp ct).map (fun v => { path := (findPath home ct).inner, fingerprint := v })

/-- The fatal message raised on a sidecar/save path mismatch. -/
def pathMismatchMsg (oldPath newPath : String) : String :=
  "Path to cache changed from " ++ oldPath ++ " to " ++ newPath ++
    ". Perhaps CARGO_HOME changed?"

/-- One iteration of the save loop: recompute the folder info, read and
parse the sidecar, fail on a path mismatch, skip on an unchanged
fingerprint, otherwise build a fresh entry and request the upload,
containing an upload failure to an error log line. -/
def saveStep (env : SaveEnv) (ct : CacheType) : List SaveEvent × Option Err :=
  let folderPath := findPath env.homedir ct
  match buildCachedFolderInfo env.homedir env.fp ct with
  | .error e => ([], some e)
  | .ok newInfo =>
    match env.readFileRes (cachedFolderInfoPath env.homedir ct).inner with
    | .error e => ([], some e)
    | .ok contents =>
      match fromJsonFolderInfo contents with
      | none => ([], some .serde)
      | some oldInfo =>
        if oldInfo.path ≠ newInfo.path then
          ([], some (.js (pathMismatchMsg oldInfo.path newInfo.path)))
        else if oldInfo.fingerprint = newInfo.fingerprint then
          ([.infoUnchanged folderPath.inner], none)
        else
          let entry := buildCacheEntry ct folderPath (env.nonce ct)
          match env.uploadRes ct with
          | .error e =>
            ([.infoChanged folderPath.inner oldInfo.fingerprint newInfo.fingerprint,
              .uploadRequest entry, .errorFailedSave (friendlyName ct) e], none)
          | .ok _ =>
            ([.infoChanged folderPath.inner oldInfo.fingerprint newInfo.fingerprint,
              .uploadRequest entry, .infoSaved (friendlyName ct)], none)

/-- The save loop over the selected segments: a fatal step error aborts
the remaining segments. -/
def saveLoop (env : SaveEnv) : List CacheType → List SaveEvent × Except Err Unit
  | [] => ([], .ok ())
  | ct :: rest =>
    let step := saveStep env ct
    match step.2 with
    | some e => (step.1, .error e)
    | none =>
      let r := saveLoop env rest
      (step.1 ++ r.1, r.2)

/-- save_cargo_cache: parse the selection, then run the loop. -/
def saveCargoCache (env : SaveEnv) : List SaveEvent × Except Err Unit :=
  match getTypesToCache env.setEnum env.rawInput with
  | .error e => ([], .error e)
  | .ok cts => saveLoop env cts

/-! ## The restore phase (restore_cargo_cache) -/

/-- Oracles for one run of the restore phase: whether each segment folder
pre-exists, the outcome of rm_rf, the blob-cache restore outcome (ok
true is a hit), the mkdir/write outcomes per path, the fingerprint per
segment, the nonce bytes, the raw input and the HashSet iteration
order. -/
structure RestoreEnv where
  homedir : String
  rawInput : Option String
  folderExists : CacheType → Bool
  rmRfRes : CacheType → Except Err Unit
  restoreRes : CacheType → Except Err Bool
  mkdirRes : String → Except Err Unit
  writeRes : String → Except Err Unit
  fp : CacheType → Except Err Nat
  nonce : CacheType → List Nat
  setEnum : List CacheType → List CacheType

/-- The observable filesystem/log/cache interactions of the restore
phase.  The rename constructor is node::fs::rename, present in the
filesystem API of src/node.rs; whether the phase ever emits it is
exactly the atomic-write question. -/
inductive RestoreEvent where
  | warnDelete (path : String)
  | rmRf (path : String)
  | restoreRequest (entry : CacheEntry)
  | infoRestored (name : String)
  | infoNoCacheEntry (name : String)
  | mkdirAll (path : String)
  | writeFile (path : String) (contents : String)
  | rename (src : String) (dst : String)
deriving DecidableEq

/-- One iteration of the restore loop: warn about and remove a
pre-existing folder, request a restore from the blob cache, create the
folder on a miss, fingerprint, and write the sidecar record under the
sidecar directory (created first). -/
def restoreStep (env : RestoreEnv) (ct : CacheType) : List RestoreEvent × Option Err :=
  let folderPath := findPath env.homedir ct
  let evs0 : List RestoreEvent :=
    if env.folderExists ct then [.warnDelete folderPath.inner, .rmRf folderPath.inner] else []
  match (if env.folderExists ct then env.rmRfRes ct else .ok ()) with
  | .error e => (evs0, some e)
  | .ok _ =>
    let entry := buildCacheEntry ct folderPath (env.nonce ct)
    let evs1 := evs0 ++ [.restoreRequest entry]
    match env.restoreRes ct with
    | .error e => (evs1, some e)
    | .ok hit =>
      let evs2 := evs1 ++
        (if hit then [.infoRestored (friendlyName ct)]
         else [.infoNoCacheEntry (friendlyName ct), .mkdirAll folderPath.inner])
      match (if hit then Except.ok () else env.mkdirRes folderPath.inner) with
      | .error e => (evs2, some e)
      | .ok _ =>
        match env.fp ct with
        | .error e => (evs2, some e)
        | .ok fpv =>
          let info : CachedFolderInfo := { path := folderPath.inner, fingerprint := fpv }
          let infoPath := cachedFolderInfoPath env.homedir ct
          let evs3 := evs2 ++ [.mkdirAll infoPath.parent.inner]
          match env.mkdirRes infoPath.parent.inner with
          | .error e => (evs3, some e)
          | .ok _ =>
            let evs4 := evs3 ++ [.writeFile infoPath.inner (toJsonPretty info)]
            match env.writeRes infoPath.inner with
            | .error e => (evs4, some e)
            | .ok _ => (evs4, none)

/-- The restore loop over the selected segments: a fatal step error
aborts the remaining segments. -/
def restoreLoop (env : RestoreEnv) : List CacheType → List RestoreEvent × Except Err Unit
  | [] => ([], .ok ())
  | ct :: rest =>
    let step := restoreStep env ct
    match step.2 with
    | some e => (step.1, .error e)
    | none =>
      let r := restoreLoop env rest
      (step.1 ++ r.1, r.2)

/-- restore_cargo_cache: parse the selection, then run the loop. -/
def restoreCargoCache (env : RestoreEnv) : List RestoreEvent × Except Err Unit :=
  match getTypesToCache env.setEnum env.rawInput with
  | .error e => ([], .error e)
  | .ok cts => restoreLoop env cts

/-- Project the file writes out of a restore trace. -/
def getWriteEvent : RestoreEvent → Option (String × String)
  | .writeFile p c => some (p, c)
  | _ => none

/-- All file writes of a restore trace. -/
def sidecarWrites (evs : List RestoreEvent) : List (String × String) :=
  evs.filterMap getWriteEvent

/-- Whether a restore event is a rename. -/
def isRenameEvent : RestoreEvent → Bool
  | .rename _ _ => true
  | _ => false

/-- Take characters up to the first separator. -/
def takeUntilSlash : List Char → List Char
  | [] => []
  | c :: rest => if c = '/' then [] else c :: takeUntilSlash rest

/-- The last separator-free segment of a path string. -/
def lastSeg (s : String) : List Char := (takeUntilSlash s.data.reverse).reverse

/-! ## Concrete witness data -/

/-- Folder path of the Indices segment for the witness home. -/
def wPathI : String := (findPath "/root" CacheType.Indices).inner

/-- Sidecar record whose fingerprint matches the witness oracle. -/
def wOldEq : CachedFolderInfo := ⟨wPathI, 42⟩

/-- Sidecar record with a stale fingerprint. -/
def wOldNe : CachedFolderInfo := ⟨wPathI, 7⟩

/-- Sidecar record with a foreign path. -/
def wOldBad : CachedFolderInfo := ⟨"/old/.cargo/registry/index", 42⟩

/-- Save environment in which the Indices sidecar matches the fresh
fingerprint. -/
def wEnvSkip : SaveEnv where
  homedir := "/root"
  rawInput := none
  fp := fun _ => .ok 42
  readFileRes := fun _ => .ok (toJsonPretty wOldEq)
  uploadRes := fun _ => .ok ()
  nonce := fun _ => List.replicate 8 0
  setEnum := id

/-- Save environment with a stale sidecar fingerprint and a failing blob
cache. -/
def wEnvUpload : SaveEnv :=
  { wEnvSkip with
    readFileRes := fun _ => .ok (toJsonPretty wOldNe)
    uploadRes := fun _ => .error (.js "ECONN") }

/-- Save environment whose sidecar names a different folder path. -/
def wEnvMismatch : SaveEnv :=
  { wEnvSkip with readFileRes := fun _ => .ok (toJsonPretty wOldBad) }

/-- Restore environment with an unknown token in the cache-only input. -/
def wEnvBogus : RestoreEnv where
  homedir := "/root"
  rawInput := some "indices bogus crates"
  folderExists := fun _ => false
  rmRfRes := fun _ => .ok ()
  restoreRes := fun _ => .ok false
  mkdirRes := fun _ => .ok ()
  writeRes := fun _ => .ok ()
  fp := fun _ => .ok 42
  nonce := fun _ => List.replicate 8 0
  setEnum := id

/-- Save environment with the same unknown token. -/
def wEnvBogusSave : SaveEnv :=
  { wEnvSkip with rawInput := some "indices bogus crates" }

/-- Restore environment for witnesses: all three segments, the Indices
folder pre-exists, Crates is a cache hit, everything succeeds. -/
def wEnvRestore : RestoreEnv where
  homedir := "/root"
  rawInput := none
  folderExists := fun ct => ct = CacheType.Indices
  rmRfRes := fun _ => .ok ()
  restoreRes := fun ct => .ok (ct = CacheType.Crates)
  mkdirRes := fun _ => .ok ()
  writeRes := fun _ => .ok ()
  fp := fun _ => .ok 42
  nonce := fun _ => List.replicate 8 0
  setEnum := id

/-! ## Theorems -/

/-- The save loop on a successful step emits that step's events and
continues with the remaining segments. -/
theorem saveLoop_cons_ok (env : SaveEnv) (ct : CacheType) (rest : List CacheType)
    (h : (saveStep env ct).2 = none) :
    saveLoop env (ct :: rest)
      = ((saveStep env ct).1 ++ (saveLoop env rest).1, (saveLoop env rest).2) := by
  show (match (saveStep env ct).2 with
        | some e => ((saveStep env ct).1, Except.error e)
        | none => ((saveStep env ct).1 ++ (saveLoop env rest).1, (saveLoop env rest).2)) = _
  rw [h]

/-- The save loop on a fatally failing step stops with that step's
events. -/
theorem saveLoop_cons_err (env : SaveEnv) (ct : CacheType) (rest : List CacheType)
    (e : Err) (h : (saveStep env ct).2 = some e) :
    saveLoop env (ct :: rest) = ((saveStep env ct).1, .error e) := by
  show (match (saveStep env ct).2 with
        | some e => ((saveStep env ct).1, Except.error e)
        | none => ((saveStep env ct).1 ++ (saveLoop env rest).1, (saveLoop env rest).2)) = _
  rw [h]

/-- C1: in the save phase, when the sidecar parses and its path matches,
an equal fingerprint skips the upload (the segment contributes only the
unchanged log line and the loop continues), and a differing fingerprint
builds a fresh cache entry from the freshly drawn nonce and requests the
upload. -/
theorem save_skip_or_upload (env : SaveEnv) (ct : CacheType) (rest : List CacheType)
    (newInfo oldInfo : CachedFolderInfo) (contents : String)
    (hnew : buildCachedFolderInfo env.homedir env.fp ct = .ok newInfo)
    (hread : env.readFileRes (cachedFolderInfoPath env.homedir ct).inner = .ok contents)
    (hparse : fromJsonFolderInfo contents = some oldInfo)
    (hpath : oldInfo.path = newInfo.path) :
    (oldInfo.fingerprint = newInfo.fingerprint →
      saveStep env ct = ([.infoUnchanged (findPath env.homedir ct).inner], none) ∧
      (∀ entry, SaveEvent.uploadRequest entry ∉ (saveStep env ct).1) ∧
      saveLoop env (ct :: rest)
        = ((saveStep env ct).1 ++ (saveLoop env rest).1, (saveLoop env rest).2)) ∧
    (oldInfo.fingerprint ≠ newInfo.fingerprint →
      SaveEvent.uploadRequest (buildCacheEntry ct (findPath env.homedir ct) (env.nonce ct))
          ∈ (saveStep env ct).1 ∧
      saveLoop env (ct :: rest)
        = ((saveStep env ct).1 ++ (saveLoop env rest).1, (saveLoop env rest).2)) := by
  constructor
  · intro hfp
    have hstep : saveStep env ct = ([.infoUnchanged (findPath env.homedir ct).inner], none) := by
      unfold saveStep
      rw [hnew, hread]
      simp [hparse, hpath, hfp]
    refine ⟨hstep, ?_, saveLoop_cons_ok env ct rest (by rw [hstep])⟩
    intro entry hmem
    rw [hstep] at hmem
    simp at hmem
  · intro hfp
    have hstep : ∃ tail, saveStep env ct
        = ([.infoChanged (findPath env.homedir ct).inner oldInfo.fingerprint newInfo.fingerprint,
            .uploadRequest (buildCacheEntry ct (findPath env.homedir ct) (env.nonce ct))] ++ tail,
           none) := by
      unfold saveStep
      rw [hnew, hread]
      cases hu : env.uploadRes ct with
      | error e =>
        exact ⟨[.errorFailedSave (friendlyName ct) e], by simp [hparse, hpath, hfp, hu]⟩
      | ok _ =>
        exact ⟨[.infoSaved (friendlyName ct)], by simp [hparse, hpath, hfp, hu]⟩
    obtain ⟨tail, hstep⟩ := hstep
    refine ⟨?_, saveLoop_cons_ok env ct rest (by rw [hstep])⟩
    rw [hstep]
    simp

/-- Witness for C1 at a concrete environment: with a matching sidecar the
Indices segment contributes exactly the unchanged line; with a stale
sidecar the upload of the freshly built entry is requested. -/
theorem save_skip_or_upload_witness :
    fromJsonFolderInfo (toJsonPretty wOldEq) = some wOldEq ∧
      saveStep wEnvSkip CacheType.Indices
        = ([.infoUnchanged (findPath "/root" CacheType.Indices).inner], none) ∧
      SaveEvent.uploadRequest
          (buildCacheEntry CacheType.Indices (findPath "/root" CacheType.Indices)
            (List.replicate 8 0))
        ∈ (saveStep wEnvUpload CacheType.Indices).1 :=
  ⟨by decide,
    ((save_skip_or_upload wEnvSkip CacheType.Indices [] ⟨wPathI, 42⟩ wOldEq
        (toJsonPretty wOldEq) rfl rfl (by decide) rfl).1 rfl).1,
    ((save_skip_or_upload wEnvUpload CacheType.Indices [] ⟨wPathI, 42⟩ wOldNe
        (toJsonPretty wOldNe) rfl rfl (by decide) rfl).2 (by decide)).1⟩

/-- C2: a sidecar whose stored path differs from the freshly computed
folder path aborts the save phase fatally, with a message that embeds
both paths and points at CARGO_HOME, and no later segment is
processed. -/
theorem save_path_mismatch_fatal (env : SaveEnv) (ct : CacheType) (rest : List CacheType)
    (newInfo oldInfo : CachedFolderInfo) (contents : String)
    (hnew : buildCachedFolderInfo env.homedir env.fp ct = .ok newInfo)
    (hread : env.readFileRes (cachedFolderInfoPath env.homedir ct).inner = .ok contents)
    (hparse : fromJsonFolderInfo contents = some oldInfo)
    (hpath : oldInfo.path ≠ newInfo.path) :
    saveStep env ct = ([], some (.js (pathMismatchMsg oldInfo.path newInfo.path))) ∧
      saveLoop env (ct :: rest)
        = ([], .error (.js (pathMismatchMsg oldInfo.path newInfo.path))) ∧
      (∃ s1 s2 s3, pathMismatchMsg oldInfo.path newInfo.path
          = s1 ++ oldInfo.path ++ s2 ++ newInfo.path ++ s3) ∧
      (∃ s4 s5, pathMismatchMsg oldInfo.path newInfo.path = s4 ++ "CARGO_HOME" ++ s5) := by
  have hstep : saveStep env ct
      = ([], some (.js (pathMismatchMsg oldInfo.path newInfo.path))) := by
    unfold saveStep
    rw [hnew, hread]
    simp [hparse, hpath]
  refine ⟨hstep, ?_, ?_, ?_⟩
  · have := saveLoop_cons_err env ct rest (.js (pathMismatchMsg oldInfo.path newInfo.path))
      (by rw [hstep])
    rw [hstep] at this
    simpa using this
  · exact ⟨"Path to cache changed from ", " to ", ". Perhaps CARGO_HOME changed?", rfl⟩
  · refine ⟨"Path to cache changed from " ++ oldInfo.path ++ " to " ++ newInfo.path
      ++ ". Perhaps ", " changed?", ?_⟩
    have h9 : ". Perhaps CARGO_HOME changed?" = ". Perhaps " ++ "CARGO_HOME" ++ " changed?" := by
      decide
    unfold pathMismatchMsg
    rw [h9]
    simp [String.append_assoc]

/-- Witness for C2 at a concrete environment whose sidecar names a
foreign cargo home. -/
theorem save_path_mismatch_fatal_witness :
    wOldBad.path ≠ wPathI ∧
      saveLoop wEnvMismatch [CacheType.Indices]
        = ([], .error (.js (pathMismatchMsg wOldBad.path wPathI))) :=
  ⟨by decide,
    (save_path_mismatch_fatal wEnvMismatch CacheType.Indices [] ⟨wPathI, 42⟩ wOldBad
        (toJsonPretty wOldBad) rfl rfl (by decide) (by decide)).2.1⟩

/-- A save step's fatality is independent of the upload oracle: two
environments that agree on everything the step inspects before the
upload produce the same step verdict. -/
theorem saveStep_snd_ignores_upload (env1 env2 : SaveEnv) (ct : CacheType)
    (hh : env1.homedir = env2.homedir) (hf : env1.fp = env2.fp)
    (hr : env1.readFileRes = env2.readFileRes) :
    (saveStep env1 ct).2 = (saveStep env2 ct).2 := by
  unfold saveStep
  rw [hh, hf, hr]
  cases buildCachedFolderInfo env2.homedir env2.fp ct with
  | error e => rfl
  | ok ni =>
    dsimp only
    cases env2.readFileRes (cachedFolderInfoPath env2.homedir ct).inner with
    | error e => rfl
    | ok cont =>
      dsimp only
      cases fromJsonFolderInfo cont with
      | none => rfl
      | some oi =>
        dsimp only
        by_cases hp : oi.path ≠ ni.path
        · simp [hp]
        · by_cases hfp2 : oi.fingerprint = ni.fingerprint
          · simp [hp, hfp2]
          · cases env1.uploadRes ct <;> cases env2.uploadRes ct <;> simp [hp, hfp2]

/-- C3: a failed blob-cache upload for one segment is contained: the
step logs the failure at error level and does not fail, the loop
continues with the remaining segments, and the phase result never
depends on upload outcomes at all. -/
theorem save_upload_failure_contained (env : SaveEnv) (ct : CacheType) (rest : List CacheType)
    (newInfo oldInfo : CachedFolderInfo) (contents : String) (e : Err)
    (hnew : buildCachedFolderInfo env.homedir env.fp ct = .ok newInfo)
    (hread : env.readFileRes (cachedFolderInfoPath env.homedir ct).inner = .ok contents)
    (hparse : fromJsonFolderInfo contents = some oldInfo)
    (hpath : oldInfo.path = newInfo.path)
    (hfp : oldInfo.fingerprint ≠ newInfo.fingerprint)
    (hup : env.uploadRes ct = .error e) :
    saveStep env ct
        = ([.infoChanged (findPath env.homedir ct).inner oldInfo.fingerprint newInfo.fingerprint,
            .uploadRequest (buildCacheEntry ct (findPath env.homedir ct) (env.nonce ct)),
            .errorFailedSave (friendlyName ct) e], none) ∧
      saveLoop env (ct :: rest)
        = ((saveStep env ct).1 ++ (saveLoop env rest).1, (saveLoop env rest).2) ∧
      (∀ f cts, (saveLoop env cts).2 = (saveLoop { env with uploadRes := f } cts).2) := by
  have hstep : saveStep env ct
      = ([.infoChanged (findPath env.homedir ct).inner oldInfo.fingerprint newInfo.fingerprint,
          .uploadRequest (buildCacheEntry ct (findPath env.homedir ct) (env.nonce ct)),
          .errorFailedSave (friendlyName ct) e], none) := by
    unfold saveStep
    rw [hnew, hread]
    simp [hparse, hpath, hfp, hup]
  refine ⟨hstep, saveLoop_cons_ok env ct rest (by rw [hstep]), ?_⟩
  intro f cts
  induction cts with
  | nil => rfl
  | cons c cs ih =>
    have hsame : (saveStep env c).2 = (saveStep { env with uploadRes := f } c).2 :=
      saveStep_snd_ignores_upload env { env with uploadRes := f } c rfl rfl rfl
    cases h2 : (saveStep env c).2 with
    | some e2 =>
      rw [saveLoop_cons_err env c cs e2 h2,
        saveLoop_cons_err { env with uploadRes := f } c cs e2 (by rw [← hsame, h2])]
    | none =>
      rw [saveLoop_cons_ok env c cs h2,
        saveLoop_cons_ok { env with uploadRes := f } c cs (by rw [← hsame, h2])]
      simpa using ih

/-- Witness for C3: in the concrete failing-upload environment the
Indices step logs the failure, does not fail, and the phase still
returns success. -/
theorem save_upload_failure_contained_witness :
    wEnvUpload.uploadRes CacheType.Indices = .error (.js "ECONN") ∧
      (saveStep wEnvUpload CacheType.Indices).2 = none ∧
      (saveLoop wEnvUpload [CacheType.Indices]).2 = .ok () :=
  ⟨rfl,
    by
      rw [(save_upload_failure_contained wEnvUpload CacheType.Indices [] ⟨wPathI, 42⟩ wOldNe
          (toJsonPretty wOldNe) (.js "ECONN") rfl rfl (by decide) rfl (by decide) rfl).1],
    by
      rw [(save_upload_failure_contained wEnvUpload CacheType.Indices [] ⟨wPathI, 42⟩ wOldNe
          (toJsonPretty wOldNe) (.js "ECONN") rfl rfl (by decide) rfl (by decide) rfl).2.1]
      rfl⟩

/-- C10: Path::push replaces the receiver with an absolute argument and
joins a relative one. -/
theorem path_push_absolute_replaces (p a : Path) :
    (a.isAbsolute = true → p.push a = a) ∧
    (a.isAbsolute = false → p.push a = ⟨nodeJoin p.inner a.inner⟩) := by
  unfold Path.push
  constructor <;> intro h <;> simp [h]

/-- Witness for C10 at concrete paths: pushing the absolute "/opt" onto
"/root" discards "/root" entirely, and pushing the relative "x" joins. -/
theorem path_push_absolute_replaces_witness :
    (Path.fromStr "/opt").isAbsolute = true ∧
      (Path.fromStr "/root").push (Path.fromStr "/opt") = Path.fromStr "/opt" ∧
      (Path.fromStr "x").isAbsolute = false ∧
      (Path.fromStr "/root").push (Path.fromStr "x") = ⟨nodeJoin "/root" "x"⟩ :=
  ⟨by decide, (path_push_absolute_replaces _ _).1 (by decide), by decide,
    (path_push_absolute_replaces _ _).2 (by decide)⟩

/-- C4 counterexample: with the all-zero eight-byte nonce, the primary
key actually built ends in a padding character, so it is not the
friendly name followed by the unpadded URL-safe rendering the claim
describes; the padded and unpadded renderings differ. -/
theorem cache_key_unpadded_counterexample :
    (buildCacheEntry CacheType.Indices (Path.fromStr "/root/.cargo/registry/index")
        (List.replicate 8 0)).primaryKey
      ≠ friendlyName CacheType.Indices ++ " - " ++ base64UrlSafeNoPad (List.replicate 8 0) ∧
    (base64UrlSafe (List.replicate 8 0)).data.contains '=' = true ∧
    (base64UrlSafeNoPad (List.replicate 8 0)).data.contains '=' = false := by
  refine ⟨?_, by decide, by decide⟩
  decide

/-- C4 amended: the primary key is the friendly name, a spaced hyphen,
and the eight-byte nonce rendered in URL-safe base64 WITH padding (the
twelve-character rendering ends in one padding character); the restore
fallback is exactly the friendly name. -/
theorem cache_key_shape (ct : CacheType) (p : Path) (nonce : List Nat)
    (h : nonce.length = 8) :
    (buildCacheEntry ct p nonce).primaryKey
        = friendlyName ct ++ " - " ++ base64UrlSafe nonce ∧
      (buildCacheEntry ct p nonce).restoreKeys = [friendlyName ct] ∧
      (base64UrlSafe nonce).data.length = 12 ∧
      (base64UrlSafe nonce).data.getLast? = some '=' := by
  obtain ⟨a, l1, rfl⟩ : ∃ a l1, nonce = a :: l1 := by
    cases nonce with | nil => simp at h | cons a l => exact ⟨a, l, rfl⟩
  simp only [List.length_cons] at h
  obtain ⟨b, l2, rfl⟩ : ∃ b l2, l1 = b :: l2 := by
    cases l1 with | nil => simp at h | cons b l => exact ⟨b, l, rfl⟩
  simp only [List.length_cons] at h
  obtain ⟨c, l3, rfl⟩ : ∃ c l3, l2 = c :: l3 := by
    cases l2 with | nil => simp at h | cons c l => exact ⟨c, l, rfl⟩
  simp only [List.length_cons] at h
  obtain ⟨d, l4, rfl⟩ : ∃ d l4, l3 = d :: l4 := by
    cases l3 with | nil => simp at h | cons d l => exact ⟨d, l, rfl⟩
  simp only [List.length_cons] at h
  obtain ⟨e, l5, rfl⟩ : ∃ e l5, l4 = e :: l5 := by
    cases l4 with | nil => simp at h | cons e l => exact ⟨e, l, rfl⟩
  simp only [List.length_cons] at h
  obtain ⟨f, l6, rfl⟩ : ∃ f l6, l5 = f :: l6 := by
    cases l5 with | nil => simp at h | cons f l => exact ⟨f, l, rfl⟩
  simp only [List.length_cons] at h
  obtain ⟨g, l7, rfl⟩ : ∃ g l7, l6 = g :: l7 := by
    cases l6 with | nil => simp at h | cons g l => exact ⟨g, l, rfl⟩
  simp only [List.length_cons] at h
  obtain ⟨i, l8, rfl⟩ : ∃ i l8, l7 = i :: l8 := by
    cases l7 with | nil => simp at h | cons i l => exact ⟨i, l, rfl⟩
  simp only [List.length_cons] at h
  obtain rfl : l8 = [] := by
    cases l8 with | nil => rfl | cons x l => simp at h
  refine ⟨rfl, rfl, ?_, ?_⟩ <;>
    simp [base64UrlSafe, b64EncodeGroups]

/-- Expecting a literal prefix succeeds exactly on that prefix. -/
theorem parseLit_append (lit s : List Char) : parseLit lit (lit ++ s) = some s := by
  induction lit with
  | nil => rfl
  | cons c cs ih => simp [parseLit, ih]

/-- Hex digit characters decode back to their value. -/
theorem hexVal_hexDigit (d : Nat) (h : d < 16) : hexVal (hexDigit d) = some d := by
  interval_cases d <;> decide

/-- The string parser undoes one escaped character. -/
theorem parseStringBody_escChar (c : Char) (u : List Char) :
    parseStringBody (escChar c ++ u)
      = (parseStringBody u).map (fun pr => (c :: pr.1, pr.2)) := by
  unfold escChar
  by_cases h1 : c = '"'
  · subst h1
    rw [parseStringBody.eq_def]
    dsimp only
    cases hu : parseStringBody u <;> simp [unescapeChar, hu]
  · rw [if_neg h1]
    by_cases h2 : c = '\\'
    · subst h2
      rw [parseStringBody.eq_def]
      dsimp only
      cases hu : parseStringBody u <;> simp [unescapeChar, hu]
    · rw [if_neg h2]
      by_cases h3 : c = Char.ofNat 8
      · subst h3
        rw [parseStringBody.eq_def]
        dsimp only
        cases hu : parseStringBody u <;> simp [unescapeChar, hu]
      · rw [if_neg h3]
        by_cases h4 : c = Char.ofNat 9
        · subst h4
          rw [parseStringBody.eq_def]
          dsimp only
          cases hu : parseStringBody u <;> simp [unescapeChar, hu]
        · rw [if_neg h4]
          by_cases h5 : c = Char.ofNat 10
          · subst h5
            rw [parseStringBody.eq_def]
            dsimp only
            cases hu : parseStringBody u <;> simp [unescapeChar, hu]
          · rw [if_neg h5]
            by_cases h6 : c = Char.ofNat 12
            · subst h6
              rw [parseStringBody.eq_def]
              dsimp only
              cases hu : parseStringBody u <;> simp [unescapeChar, hu]
            · rw [if_neg h6]
              by_cases h7 : c = Char.ofNat 13
              · subst h7
                rw [parseStringBody.eq_def]
                dsimp only
                cases hu : parseStringBody u <;> simp [unescapeChar, hu]
              · rw [if_neg h7]
                by_cases h8 : c.toNat < 32
                · rw [if_pos h8]
                  have hhi : hexVal (hexDigit (c.toNat / 16)) = some (c.toNat / 16) :=
                    hexVal_hexDigit _ (by omega)
                  have hlo : hexVal (hexDigit (c.toNat % 16)) = some (c.toNat % 16) :=
                    hexVal_hexDigit _ (by omega)
                  have h55 : 16 * (c.toNat / 16) + c.toNat % 16 < 55296 := by omega
                  have hchar : Char.ofNat (16 * (c.toNat / 16) + c.toNat % 16) = c := by
                    have hx : 16 * (c.toNat / 16) + c.toNat % 16 = c.toNat := by omega
                    rw [hx, Char.ofNat_toNat]
                  have h0 : hexVal '0' = some 0 := by decide
                  rw [parseStringBody.eq_def]
                  cases hu : parseStringBody u <;>
                    simp [h0, hhi, hlo, hu, h55, hchar]
                · rw [if_neg h8]
                  have hq : ¬ c = '"' := h1
                  have hb : ¬ c = '\\' := h2
                  rw [parseStringBody.eq_def]
                  cases hu : parseStringBody u <;> simp [hq, hb, hu]

/-- The string parser undoes the serializer's escape of a whole string
body up to the closing quote. -/
theorem parseStringBody_escape (s t : List Char) :
    parseStringBody (escapeString s ++ '"' :: t) = some (s, t) := by
  induction s with
  | nil =>
    show parseStringBody ('"' :: t) = some ([], t)
    rw [parseStringBody.eq_def]
    simp
  | cons c cs ih =>
    have hsplit : escapeString (c :: cs) ++ '"' :: t
        = escChar c ++ (escapeString cs ++ '"' :: t) := by
      simp [escapeString]
    rw [hsplit, parseStringBody_escChar, ih]
    rfl

/-- The fueled digit rendering agrees with Nat.digits. -/
theorem renderNatAux_eq (fuel n : Nat) (h : n ≤ fuel) :
    renderNatAux fuel n = (Nat.digits 10 n).map digitChar := by
  induction fuel generalizing n with
  | zero =>
    interval_cases n
    simp [renderNatAux]
  | succ f ih =>
    by_cases hn : n = 0
    · subst hn
      simp [renderNatAux]
    · rw [renderNatAux, if_neg hn,
        Nat.digits_def' (by norm_num : (1 : ℕ) < 10) (Nat.pos_of_ne_zero hn), List.map_cons]
      have hlt := Nat.div_lt_self (Nat.pos_of_ne_zero hn) (by norm_num : 1 < 10)
      rw [ih (n / 10) (by omega)]

/-- Digit characters are digits. -/
theorem digitChar_isDigit (d : Nat) (h : d < 10) : (digitChar d).isDigit = true := by
  interval_cases d <;> decide

/-- Digit characters decode back to their value. -/
theorem digitChar_toNat (d : Nat) (h : d < 10) : (digitChar d).toNat = 48 + d := by
  interval_cases d <;> decide

/-- The digit accumulator consumes exactly the leading digit run. -/
theorem parseDigitsAux_append (ds rest : List Char) (acc : Nat)
    (hds : ∀ c ∈ ds, c.isDigit = true)
    (hrest : ∀ c, rest.head? = some c → c.isDigit = false) :
    parseDigitsAux acc (ds ++ rest)
      = (ds.foldl (fun a c => 10 * a + (c.toNat - 48)) acc, rest) := by
  induction ds generalizing acc with
  | nil =>
    cases rest with
    | nil => rfl
    | cons c cs => simp [parseDigitsAux, hrest c rfl]
  | cons c cs ih =>
    have hc := hds c (by simp)
    rw [List.cons_append, parseDigitsAux, if_pos hc, ih _ (fun x hx => hds x (by simp [hx]))]
    rfl

/-- Folding the decimal step over reversed digit characters equals
folding it over the reversed digits. -/
theorem foldl_rev_digitChars (L : List Nat) (hL : ∀ d ∈ L, d < 10) (acc : Nat) :
    (L.map digitChar).reverse.foldl (fun a c => 10 * a + (c.toNat - 48)) acc
      = L.reverse.foldl (fun a d => 10 * a + d) acc := by
  induction L generalizing acc with
  | nil => rfl
  | cons d L2 ih =>
    have hd := hL d (by simp)
    simp only [List.map_cons, List.reverse_cons, List.foldl_append, List.foldl_cons,
      List.foldl_nil]
    rw [ih (fun x hx => hL x (by simp [hx])), digitChar_toNat d hd]
    congr 1
    omega

/-- Folding the decimal step over reversed little-endian digits
reconstructs the number. -/
theorem foldl_rev_ofDigits (L : List Nat) (acc : Nat) :
    L.reverse.foldl (fun a d => 10 * a + d) acc
      = acc * 10 ^ L.length + Nat.ofDigits 10 L := by
  induction L generalizing acc with
  | nil => simp
  | cons d L2 ih =>
    simp only [List.reverse_cons, List.foldl_append, List.foldl_cons, List.foldl_nil,
      List.length_cons, Nat.ofDigits_cons, ih]
    ring

/-- The number parser undoes the decimal rendering when the rendered
digits are followed by a non-digit. -/
theorem parseNumber_render (n : Nat) (rest : List Char)
    (hrest : ∀ c, rest.head? = some c → c.isDigit = false) :
    parseNumber (renderNat n ++ rest) = some (n, rest) := by
  by_cases hn : n = 0
  · subst hn
    have h0 : renderNat 0 = ['0'] := rfl
    rw [h0]
    have := parseDigitsAux_append ['0'] rest 0 (by intro c hc; simp at hc; subst hc; decide) hrest
    simp only [List.cons_append, List.nil_append] at this
    simp [parseNumber, this]
  · have hrender : renderNat n = ((Nat.digits 10 n).map digitChar).reverse := by
      rw [renderNat, if_neg hn, renderNatAux_eq n n le_rfl]
    have hdigs : ∀ d ∈ Nat.digits 10 n, d < 10 := fun d hd =>
      Nat.digits_lt_base (by norm_num) hd
    have hchars : ∀ c ∈ renderNat n, c.isDigit = true := by
      rw [hrender]
      intro c hc
      rw [List.mem_reverse, List.mem_map] at hc
      obtain ⟨d, hd, rfl⟩ := hc
      exact digitChar_isDigit d (hdigs d hd)
    have hval : (renderNat n).foldl (fun a c => 10 * a + (c.toNat - 48)) 0 = n := by
      rw [hrender, foldl_rev_digitChars _ hdigs, foldl_rev_ofDigits]
      simp [Nat.ofDigits_digits]
    have hne : renderNat n ≠ [] := by
      rw [hrender]
      simp [Nat.digits_ne_nil_iff_ne_zero.mpr hn]
    cases hr : renderNat n with
    | nil => exact absurd hr hne
    | cons c0 cs0 =>
      have hc0 : c0.isDigit = true := hchars c0 (by rw [hr]; simp)
      have hpd := parseDigitsAux_append (c0 :: cs0) rest 0 (by rw [← hr]; exact hchars) hrest
      rw [List.cons_append] at hpd
      rw [hr] at hval
      simp [parseNumber, hc0, hpd, hval]

/-- C9: deserializing the serialized form of any sidecar record yields
the record back (write/read round trip of the sidecar store). -/
theorem sidecar_roundtrip (info : CachedFolderInfo)
    (h : info.fingerprint < 18446744073709551616) :
    fromJsonFolderInfo (toJsonPretty info) = some info := by
  have hdata : (toJsonPretty info).data
      = jsonLitA ++ (escapeString info.path.data
          ++ '"' :: (jsonLitB ++ (renderNat info.fingerprint ++ jsonLitC))) := by
    show (("\x7b\n  \"path\": \"" ++ (⟨escapeString info.path.data⟩ : String)
        ++ "\",\n  \"fingerprint\": " ++ (⟨renderNat info.fingerprint⟩ : String)
        ++ "\n\x7d") : String).data = _
    have hmid : ("\",\n  \"fingerprint\": " : String).data = '"' :: jsonLitB := by decide
    show ("\x7b\n  \"path\": \"" : String).data ++ escapeString info.path.data
        ++ ("\",\n  \"fingerprint\": " : String).data ++ renderNat info.fingerprint
        ++ ("\n\x7d" : String).data = _
    rw [hmid]
    simp [jsonLitA, jsonLitC, List.append_assoc]
  unfold fromJsonFolderInfo
  rw [hdata, parseLit_append]
  dsimp only
  rw [parseStringBody_escape]
  dsimp only
  rw [parseLit_append]
  dsimp only
  rw [parseNumber_render info.fingerprint jsonLitC (by intro c hc; cases hc; decide)]
  dsimp only
  rw [if_pos h]
  have hlitC : parseLit jsonLitC jsonLitC = some [] := by
    have := parseLit_append jsonLitC []
    simpa using this
  rw [hlitC]
  dsimp only
  rw [if_pos rfl]

/-- Witness-style instance of C9 at a concrete record (the theorem has
the u64 bound as hypothesis). -/
theorem sidecar_roundtrip_witness :
    (wOldEq.fingerprint < 18446744073709551616) ∧
      fromJsonFolderInfo (toJsonPretty wOldEq) = some wOldEq :=
  ⟨by decide, sidecar_roundtrip wOldEq (by decide)⟩

/-- The token loop succeeds on all-known tokens, keeps the accumulator
duplicate-free and returns exactly the tokens' segments on top of the
accumulator. -/
theorem parseTypes_ok (toks : List String) (acc : List CacheType)
    (hacc : acc.Nodup)
    (hknown : ∀ tok ∈ toks, ∃ ct, cacheTypeFromStr tok = some ct) :
    ∃ res, parseTypes toks acc = .ok res ∧ res.Nodup ∧
      (∀ ct, ct ∈ res ↔ ct ∈ acc ∨ ∃ tok ∈ toks, cacheTypeFromStr tok = some ct) := by
  induction toks generalizing acc with
  | nil => exact ⟨acc, rfl, hacc, by simp⟩
  | cons t ts ih =>
    obtain ⟨ct, hct⟩ := hknown t (by simp)
    have hknown' : ∀ tok ∈ ts, ∃ c, cacheTypeFromStr tok = some c := fun tok h =>
      hknown tok (by simp [h])
    by_cases hmem : ct ∈ acc
    · obtain ⟨res, h1, h2, h3⟩ := ih acc hacc hknown'
      refine ⟨res, by simp [parseTypes, hct, hmem, h1], h2, ?_⟩
      intro c
      rw [h3 c]
      constructor
      · rintro (h | ⟨tok, htok, h⟩)
        · exact Or.inl h
        · exact Or.inr ⟨tok, by simp [htok], h⟩
      · rintro (h | ⟨tok, htok, h⟩)
        · exact Or.inl h
        · rcases List.mem_cons.mp htok with rfl | htok2
          · rw [hct] at h
            cases h
            exact Or.inl hmem
          · exact Or.inr ⟨tok, htok2, h⟩
    · have hacc' : (acc ++ [ct]).Nodup := by
        rw [List.nodup_append]
        exact ⟨hacc, List.nodup_singleton ct, by simpa using hmem⟩
      obtain ⟨res, h1, h2, h3⟩ := ih (acc ++ [ct]) hacc' hknown'
      refine ⟨res, by simp [parseTypes, hct, hmem, h1], h2, ?_⟩
      intro c
      rw [h3 c]
      constructor
      · rintro (h | ⟨tok, htok, h⟩)
        · rcases List.mem_append.mp h with h2 | h2
          · exact Or.inl h2
          · simp only [List.mem_singleton] at h2
            exact Or.inr ⟨t, by simp, by rw [hct, h2]⟩
        · exact Or.inr ⟨tok, by simp [htok], h⟩
      · rintro (h | ⟨tok, htok, h⟩)
        · exact Or.inl (List.mem_append.mpr (Or.inl h))
        · rcases List.mem_cons.mp htok with rfl | htok2
          · rw [hct] at h
            cases h
            exact Or.inl (by simp)
          · exact Or.inr ⟨tok, htok2, h⟩

/-- The token loop fails on the first unknown token, naming it. -/
theorem parseTypes_err (good : List String) (bad : String) (rest : List String)
    (acc : List CacheType)
    (hgood : ∀ tok ∈ good, ∃ ct, cacheTypeFromStr tok = some ct)
    (hbad : cacheTypeFromStr bad = none) :
    parseTypes (good ++ bad :: rest) acc = .error (.parseCacheableItem bad) := by
  induction good generalizing acc with
  | nil => simp [parseTypes, hbad]
  | cons t ts ih =>
    obtain ⟨ct, hct⟩ := hgood t (by simp)
    simpa [parseTypes, hct] using ih _ (fun tok h => hgood tok (by simp [h]))

/-- The token loop keeps the accumulator duplicate-free. -/
theorem parseTypes_nodup (toks : List String) (acc res : List CacheType)
    (hacc : acc.Nodup) (h : parseTypes toks acc = .ok res) : res.Nodup := by
  induction toks generalizing acc with
  | nil =>
    simp only [parseTypes] at h
    cases h
    exact hacc
  | cons t ts ih =>
    simp only [parseTypes] at h
    cases hct : cacheTypeFromStr t with
    | none => rw [hct] at h; cases h
    | some ct =>
      rw [hct] at h
      dsimp only at h
      by_cases hmem : ct ∈ acc
      · rw [if_pos hmem] at h
        exact ih acc hacc h
      · rw [if_neg hmem] at h
        refine ih (acc ++ [ct]) ?_ h
        rw [List.nodup_append]
        exact ⟨hacc, List.nodup_singleton ct, by simpa using hmem⟩

/-- The HashSet contents selected by get_types_to_cache are
duplicate-free. -/
theorem coreSelect_nodup (raw : Option String) (cts : List CacheType)
    (h : coreSelect raw = .ok cts) : cts.Nodup := by
  unfold coreSelect at h
  cases hgi : getInput raw with
  | none =>
    rw [hgi] at h
    dsimp only at h
    cases h
    decide
  | some s =>
    rw [hgi] at h
    exact parseTypes_nodup _ _ _ List.nodup_nil h

/-- C6: segment selection from the cache-only input.  An absent or empty
input selects all three segments; otherwise the whitespace-split tokens
are parsed and deduplicated, and an unknown token fails the selection
with ParseCacheableItem naming the first offender, making both phases
abort with that error before emitting a single filesystem or cache
event. -/
theorem selection_semantics (setEnum : List CacheType → List CacheType)
    (henum : ValidEnum setEnum) (raw : Option String) :
    (getInput raw = none →
      ∃ l, getTypesToCache setEnum raw = .ok l ∧ l.Perm registryOrder) ∧
    (∀ s, getInput raw = some s →
      ((∀ tok ∈ splitWhitespace s, ∃ ct, cacheTypeFromStr tok = some ct) →
        ∃ l, getTypesToCache setEnum raw = .ok l ∧ l.Nodup ∧
          (∀ ct, ct ∈ l ↔ ∃ tok ∈ splitWhitespace s, cacheTypeFromStr tok = some ct)) ∧
      (∀ good bad rest, splitWhitespace s = good ++ bad :: rest →
        (∀ tok ∈ good, ∃ ct, cacheTypeFromStr tok = some ct) →
        cacheTypeFromStr bad = none →
        getTypesToCache setEnum raw = .error (.parseCacheableItem bad) ∧
        (∀ env : RestoreEnv, env.rawInput = raw → env.setEnum = setEnum →
          restoreCargoCache env = ([], .error (.parseCacheableItem bad))) ∧
        (∀ env : SaveEnv, env.rawInput = raw → env.setEnum = setEnum →
          saveCargoCache env = ([], .error (.parseCacheableItem bad))))) := by
  constructor
  · intro hnone
    refine ⟨setEnum registryOrder, ?_, henum registryOrder (by decide)⟩
    unfold getTypesToCache coreSelect
    rw [hnone]
    rfl
  · intro s hsome
    constructor
    · intro hknown
      obtain ⟨res, h1, h2, h3⟩ := parseTypes_ok (splitWhitespace s) [] List.nodup_nil hknown
      refine ⟨setEnum res, ?_, ((henum res h2).nodup_iff).mpr h2, ?_⟩
      · unfold getTypesToCache coreSelect
        rw [hsome]
        dsimp only
        rw [h1]
        rfl
      · intro ct
        rw [(henum res h2).mem_iff, h3 ct]
        simp
    · intro good bad rest hsplit hgood hbad
      have herr : getTypesToCache setEnum raw = .error (.parseCacheableItem bad) := by
        unfold getTypesToCache coreSelect
        rw [hsome]
        dsimp only
        rw [hsplit, parseTypes_err good bad rest [] hgood hbad]
        rfl
      refine ⟨herr, ?_, ?_⟩
      · intro env h1 h2
        unfold restoreCargoCache
        rw [h1, h2, herr]
      · intro env h1 h2
        unfold saveCargoCache
        rw [h1, h2, herr]

/-- Witness for C6, matching the spec's scenario S1: with input
"indices bogus crates" both phases abort immediately with
ParseCacheableItem "bogus" and an empty event trace. -/
theorem selection_semantics_witness :
    getTypesToCache id (some "indices bogus crates")
        = .error (.parseCacheableItem "bogus") ∧
      restoreCargoCache wEnvBogus = ([], .error (.parseCacheableItem "bogus")) ∧
      saveCargoCache wEnvBogusSave = ([], .error (.parseCacheableItem "bogus")) := by
  have h := ((selection_semantics id (fun l _ => List.Perm.refl l)
      (some "indices bogus crates")).2 "indices bogus crates" rfl).2
      ["indices"] "bogus" ["crates"] (by decide)
      (by
        intro tok htok
        simp only [List.mem_singleton] at htok
        exact ⟨CacheType.Indices, by rw [htok]; rfl⟩)
      (by decide)
  exact ⟨h.1, h.2.1 wEnvBogus rfl rfl, h.2.2 wEnvBogusSave rfl rfl⟩

/-- C8 counterexample: reversal is a legitimate iteration order for the
HashSet drained by get_types_to_cache (Rust's std HashSet iterates in an
arbitrary, per-process-seeded order), and under it the selection for an
absent input comes out in the reverse of the registry's enumeration
order, so the visit order is neither the registry order nor stable
across runs. -/
theorem selection_order_counterexample :
    ValidEnum List.reverse ∧
      getTypesToCache List.reverse none
        = .ok [CacheType.GitRepos, CacheType.Crates, CacheType.Indices] ∧
      [CacheType.GitRepos, CacheType.Crates, CacheType.Indices] ≠ registryOrder ∧
      getTypesToCache id none = .ok registryOrder :=
  ⟨fun l _ => l.reverse_perm, by decide, by decide, by decide⟩

/-- C8 amended: for a fixed cache-only input the selected SET of
segments is a pure function of the input (any two legitimate HashSet
iteration orders yield permutations of each other, and parse failures
are identical), so restore and save phases of the same run operate on
the same segments; the visit order itself is the HashSet's arbitrary
iteration order. -/
theorem selection_set_deterministic (e1 e2 : List CacheType → List CacheType)
    (h1 : ValidEnum e1) (h2 : ValidEnum e2) (raw : Option String) :
    (∀ l1 l2, getTypesToCache e1 raw = .ok l1 → getTypesToCache e2 raw = .ok l2 →
      l1.Perm l2) ∧
    (∀ e, getTypesToCache e1 raw = .error e ↔ getTypesToCache e2 raw = .error e) := by
  constructor
  · intro l1 l2 g1 g2
    unfold getTypesToCache at g1 g2
    cases hc : coreSelect raw with
    | error e => rw [hc] at g1; cases g1
    | ok l =>
      rw [hc] at g1 g2
      cases g1
      cases g2
      have hl := coreSelect_nodup raw l hc
      exact (h1 l hl).trans (h2 l hl).symm
  · intro e
    unfold getTypesToCache
    cases hc : coreSelect raw with
    | error e2 => exact Iff.rfl
    | ok l => simp [Except.map]

/-- Witness for C8's amended statement: the identity and reversal orders
select permutations of the same set for an absent input. -/
theorem selection_set_deterministic_witness :
    getTypesToCache id none = .ok registryOrder ∧
      getTypesToCache List.reverse none
        = .ok [CacheType.GitRepos, CacheType.Crates, CacheType.Indices] ∧
      List.Perm registryOrder [CacheType.GitRepos, CacheType.Crates, CacheType.Indices] :=
  ⟨by decide, by decide,
    (selection_set_deterministic id List.reverse (fun l _ => List.Perm.refl l)
        (fun l _ => l.reverse_perm) none).1 registryOrder
      [CacheType.GitRepos, CacheType.Crates, CacheType.Indices] (by decide) (by decide)⟩

/-- splitSlash distributes over an append around a separator. -/
theorem splitSlash_ne_nil (l : List Char) : splitSlash l ≠ [] := by
  cases l with
  | nil => simp [splitSlash]
  | cons c rest =>
    simp only [splitSlash]
    cases splitSlash rest with
    | nil => simp
    | cons s ss => by_cases hc : c = '/' <;> simp [hc]

/-- Splitting around an explicit separator splits the two sides. -/
theorem splitSlash_append (x y : List Char) :
    splitSlash (x ++ '/' :: y) = splitSlash x ++ splitSlash y := by
  induction x with
  | nil =>
    show splitSlash ('/' :: y) = [[]] ++ splitSlash y
    simp only [splitSlash]
    cases hy : splitSlash y with
    | nil => exact absurd hy (splitSlash_ne_nil y)
    | cons s ss => simp
  | cons c x ih =>
    show splitSlash (c :: (x ++ '/' :: y)) = _
    simp only [splitSlash, ih]
    cases hx : splitSlash x with
    | nil => exact absurd hx (splitSlash_ne_nil x)
    | cons s ss => by_cases hc : c = '/' <;> simp [hc, splitSlash]

/-- A separator-free list is a single segment. -/
theorem splitSlash_eq_single (w : List Char) (hw : '/' ∉ w) : splitSlash w = [w] := by
  induction w with
  | nil => rfl
  | cons c cs ih =>
    have hc : ¬ c = '/' := fun h => hw (by simp [h])
    have hcs : '/' ∉ cs := fun h => hw (by simp [h])
    simp only [splitSlash, ih hcs]
    simp [hc]

/-- Segment resolution treats a trailing plain segment as a plain push. -/
theorem normSegsAux_append_plain (a : Bool) (w : List Char)
    (hw1 : w ≠ []) (hw2 : w ≠ ['.']) (hw3 : w ≠ ['.', '.'])
    (segs acc : List (List Char)) :
    normSegsAux a acc (segs ++ [w]) = w :: normSegsAux a acc segs := by
  induction segs generalizing acc with
  | nil => simp [normSegsAux, hw1, hw2, hw3]
  | cons s ss ih =>
    simp only [List.cons_append, normSegsAux]
    repeat' split
    all_goals exact ih _

/-- Joining with a trailing singleton. -/
theorem joinSegs_concat_cons (x : List Char) (xs : List (List Char)) (w : List Char) :
    joinSegs ((x :: xs) ++ [w]) = joinSegs (x :: xs) ++ '/' :: w := by
  induction xs generalizing x with
  | nil => rfl
  | cons x2 xs2 ih =>
    show joinSegs (x :: ((x2 :: xs2) ++ [w])) = _
    cases hcat : (x2 :: xs2) ++ [w] with
    | nil => simp at hcat
    | cons z zs =>
      rw [← hcat]
      show x ++ '/' :: joinSegs ((x2 :: xs2) ++ [w]) = (x ++ '/' :: joinSegs (x2 :: xs2)) ++ '/' :: w
      rw [ih]
      simp

/-- The until-separator scan consumes exactly the separator-free
prefix. -/
theorem takeUntilSlash_append (xs ys : List Char) (hxs : '/' ∉ xs) :
    takeUntilSlash (xs ++ '/' :: ys) = xs := by
  induction xs with
  | nil => simp [takeUntilSlash]
  | cons c cs ih =>
    have hc : ¬ c = '/' := fun h => hxs (by simp [h])
    have hcs : '/' ∉ cs := fun h => hxs (by simp [h])
    simp only [List.cons_append, takeUntilSlash, if_neg hc]
    exact congrArg (List.cons c) (ih hcs)

/-- The until-separator scan keeps a separator-free list whole. -/
theorem takeUntilSlash_all (xs : List Char) (h : '/' ∉ xs) :
    takeUntilSlash xs = xs := by
  induction xs with
  | nil => rfl
  | cons c cs ih =>
    have hc : ¬ c = '/' := fun h2 => h (by simp [h2])
    have hcs : '/' ∉ cs := fun h2 => h (by simp [h2])
    simp only [takeUntilSlash, if_neg hc, ih hcs]

/-- The last segment of a path ending in a separator-free suffix. -/
theorem lastSeg_append_slash (pre W : List Char) (hWs : '/' ∉ W) :
    lastSeg ⟨pre ++ '/' :: W⟩ = W := by
  unfold lastSeg
  show (takeUntilSlash (pre ++ '/' :: W).reverse).reverse = W
  rw [List.reverse_append, List.reverse_cons, List.append_assoc, List.singleton_append,
    takeUntilSlash_append _ _ (by simpa using hWs), List.reverse_reverse]

/-- The last segment of a separator-free path. -/
theorem lastSeg_all_ne (W : List Char) (hWs : '/' ∉ W) : lastSeg ⟨W⟩ = W := by
  unfold lastSeg
  show (takeUntilSlash W.reverse).reverse = W
  rw [takeUntilSlash_all _ (by simpa using hWs), List.reverse_reverse]

/-- Normalization preserves a plain final segment, which becomes the
last segment of the result. -/
theorem lastSeg_normalizeList (A W : List Char) (hW : W ≠ []) (hWs : '/' ∉ W)
    (hW1 : W ≠ ['.']) (hW2 : W ≠ ['.', '.']) :
    lastSeg ⟨normalizeList (A ++ '/' :: W)⟩ = W := by
  have hsplit : splitSlash (A ++ '/' :: W) = splitSlash A ++ [W] := by
    rw [splitSlash_append, splitSlash_eq_single W hWs]
  have hne : (A ++ '/' :: W).isEmpty = false := by cases A <;> rfl
  have hlastW : ∃ c, W.getLast? = some c ∧ ¬ c = '/' := by
    cases hWl : W.getLast? with
    | none => exact absurd (List.getLast?_eq_none_iff.mp hWl) hW
    | some c =>
      refine ⟨c, rfl, fun h => hWs ?_⟩
      subst h
      exact List.mem_of_mem_getLast? hWl
  obtain ⟨c, hc, hcne⟩ := hlastW
  have hcons : ('/' :: W).getLast? = W.getLast? := by
    cases W with
    | nil => exact absurd rfl hW
    | cons b m => simp [List.getLast?_cons_cons]
  have htrail : (decide ((A ++ '/' :: W).getLast? = some '/')) = false := by
    rw [decide_eq_false_iff_not]
    intro h
    rw [List.getLast?_append_of_ne_nil A (by simp), hcons, hc] at h
    exact hcne (Option.some.inj h)
  unfold normalizeList
  rw [hne]
  simp only [Bool.false_eq_true, if_false, hsplit,
    normSegsAux_append_plain _ W hW hW1 hW2, List.reverse_cons, htrail, List.append_nil]
  cases hX : (normSegsAux (!decide ((A ++ '/' :: W).head? = some '/')) []
      (splitSlash A)).reverse with
  | nil =>
    simp only [List.nil_append]
    have hWem : W.isEmpty = false := by cases W with | nil => exact absurd rfl hW | cons a l => rfl
    have hj : joinSegs [W] = W := rfl
    rw [hj, hWem]
    simp only [Bool.false_eq_true, if_false, List.append_nil]
    split
    · exact lastSeg_append_slash [] W hWs
    · exact lastSeg_all_ne W hWs
  | cons x xs =>
    rw [joinSegs_concat_cons]
    have hbody : (joinSegs (x :: xs) ++ '/' :: W).isEmpty = false := by
      cases hjj : joinSegs (x :: xs) with
      | nil => rfl
      | cons a l => rfl
    rw [hbody]
    simp only [Bool.false_eq_true, if_false, List.append_nil]
    split
    · show lastSeg ⟨'/' :: (joinSegs (x :: xs) ++ '/' :: W)⟩ = W
      rw [show '/' :: (joinSegs (x :: xs) ++ '/' :: W)
          = ('/' :: joinSegs (x :: xs)) ++ '/' :: W by simp]
      exact lastSeg_append_slash _ W hWs
    · exact lastSeg_append_slash _ W hWs

/-- Normalization output is never empty. -/
theorem normalizeList_ne_nil (s : List Char) : normalizeList s ≠ [] := by
  unfold normalizeList
  split
  · simp
  · dsimp only
    split
    · split
      · simp
      · split <;> simp
    · next hbody =>
      intro hcontra
      rcases List.append_eq_nil.mp hcontra with ⟨h3, _h4⟩
      revert h3
      split <;> intro h3
      · cases h3
      · exact hbody (by simp [h3])

/-- Normalization of a string is never the empty string. -/
theorem normalizeStr_ne_empty (s : String) : normalizeStr s ≠ "" := by
  unfold normalizeStr
  intro h
  exact normalizeList_ne_nil s.data (congrArg String.data h)

/-- Node's join of two parts is never the empty string. -/
theorem nodeJoin_ne_empty (a b : String) : nodeJoin a b ≠ "" := by
  unfold nodeJoin
  repeat' split
  all_goals first
    | decide
    | exact normalizeStr_ne_empty _

/-- A push result has a nonempty inner string when the argument does. -/
theorem push_inner_ne_empty (p q : Path) (hq : q.inner ≠ "") : (p.push q).inner ≠ "" := by
  unfold Path.push
  split
  · exact hq
  · exact nodeJoin_ne_empty _ _

/-- Normalization preserves a leading separator. -/
theorem normalizeList_abs (s : List Char) (h : s.head? = some '/') :
    (normalizeList s).head? = some '/' := by
  have hne : s.isEmpty = false := by cases s with | nil => cases h | cons a l => rfl
  have hb : decide (s.head? = some '/') = true := decide_eq_true h
  unfold normalizeList
  rw [hne]
  simp only [Bool.false_eq_true, if_false, hb]
  split
  · simp
  · cases hb : joinSegs ((normSegsAux (!true) [] (splitSlash s)).reverse) <;> simp

/-- Node's join of an absolute first part is absolute. -/
theorem pathIsAbsolute_nodeJoin (a b : String) (ha : pathIsAbsolute a = true) (hb : b ≠ "") :
    pathIsAbsolute (nodeJoin a b) = true := by
  have ha2 : a.data.head? = some '/' := of_decide_eq_true ha
  have ha' : a ≠ "" := by
    intro h
    subst h
    cases ha2
  unfold nodeJoin
  rw [if_neg ha', if_neg hb]
  unfold pathIsAbsolute normalizeStr
  apply decide_eq_true
  apply normalizeList_abs
  show (a.data ++ ('/' :: []) ++ b.data).head? = some '/'
  cases hd : a.data with
  | nil => rw [hd] at ha2; cases ha2
  | cons x l =>
    rw [hd] at ha2
    injection ha2 with hx
    simp [hx]

/-- Pushing a relative nonempty argument onto an absolute path stays
absolute. -/
theorem path_push_abs (p q : Path) (hp : p.isAbsolute = true) (hq : q.isAbsolute = false)
    (hqne : q.inner ≠ "") : (p.push q).isAbsolute = true := by
  unfold Path.push
  rw [hq]
  simp only [Bool.false_eq_true, if_false]
  exact pathIsAbsolute_nodeJoin p.inner q.inner hp hqne

/-- An absolute home directory yields absolute segment folder paths. -/
theorem findPath_abs (home : String) (ct : CacheType) (h : pathIsAbsolute home = true) :
    pathIsAbsolute (findPath home ct).inner = true := by
  have h0 : home.data.head? = some '/' := of_decide_eq_true h
  have h1 : (Path.fromStr home).isAbsolute = true := by
    unfold Path.fromStr Path.isAbsolute pathIsAbsolute normalizeStr
    exact decide_eq_true (normalizeList_abs _ h0)
  have h2 : (findCargoHome home).isAbsolute = true :=
    path_push_abs _ _ h1 (by decide) (by decide)
  unfold findPath
  cases ct <;> exact path_push_abs _ _ h2 (by decide) (by decide)

/-- The last segment of a join with a plain file name is that name. -/
theorem lastSeg_nodeJoin_plain (a w : String)
    (ha : a ≠ "") (hw : w.data ≠ []) (hws : '/' ∉ w.data)
    (hw1 : w.data ≠ ['.']) (hw2 : w.data ≠ ['.', '.']) :
    lastSeg (nodeJoin a w) = w.data := by
  have hwne : w ≠ "" := by
    intro h
    subst h
    exact hw rfl
  unfold nodeJoin
  rw [if_neg ha, if_neg hwne]
  unfold normalizeStr
  have hdata : (a ++ "/" ++ w).data = a.data ++ '/' :: w.data := by
    show a.data ++ ('/' :: []) ++ w.data = _
    simp
  rw [hdata]
  exact lastSeg_normalizeList a.data w.data hw hws hw1 hw2

/-- The sidecar path of a segment ends in that segment's file name. -/
theorem lastSeg_cachedFolderInfoPath (home : String) (ct : CacheType) :
    lastSeg (cachedFolderInfoPath home ct).inner = (shortName ct ++ ".toml").data := by
  have hdir : ((((Path.fromStr home).push (Path.fromStr ".cache")).push
      (Path.fromStr "github-rust-actions")).push (Path.fromStr "cached_folder_info")).inner
        ≠ "" :=
    push_inner_ne_empty _ _ (by decide)
  unfold cachedFolderInfoPath
  cases ct <;>
  · rw [Path.push, if_neg (by decide)]
    exact lastSeg_nodeJoin_plain _ _ hdir (by decide) (by decide) (by decide) (by decide)

/-- Distinct segments have distinct sidecar paths, whatever the home
directory. -/
theorem cachedFolderInfoPath_inj (home : String) (a b : CacheType) (hab : a ≠ b) :
    (cachedFolderInfoPath home a).inner ≠ (cachedFolderInfoPath home b).inner := by
  intro h
  have ha := lastSeg_cachedFolderInfoPath home a
  have hb := lastSeg_cachedFolderInfoPath home b
  rw [h, hb] at ha
  cases a <;> cases b <;> first
    | exact hab rfl
    | exact absurd ha (by decide)

/-- No branch of a restore step emits a rename. -/
theorem restoreStep_no_rename (env : RestoreEnv) (ct : CacheType) :
    ((restoreStep env ct).1.all (fun e => !(isRenameEvent e))) = true := by
  unfold restoreStep
  dsimp only
  repeat' split
  all_goals simp [isRenameEvent]

/-- No restore trace contains a rename. -/
theorem restoreLoop_no_rename (env : RestoreEnv) (cts : List CacheType) :
    ((restoreLoop env cts).1.all (fun e => !(isRenameEvent e))) = true := by
  induction cts with
  | nil => rfl
  | cons c cs ih =>
    show ((match (restoreStep env c).2 with
          | some e => ((restoreStep env c).1, Except.error e)
          | none => ((restoreStep env c).1 ++ (restoreLoop env cs).1,
              (restoreLoop env cs).2)).1.all (fun e => !(isRenameEvent e))) = true
    cases (restoreStep env c).2 with
    | some e => exact restoreStep_no_rename env c
    | none =>
      simp only [List.all_append]
      rw [restoreStep_no_rename env c, ih]
      rfl

/-- The restore loop on successful steps concatenates the step traces
and succeeds. -/
theorem restoreLoop_all_ok (env : RestoreEnv) (cts : List CacheType)
    (h : ∀ ct ∈ cts, (restoreStep env ct).2 = none) :
    restoreLoop env cts = (cts.flatMap (fun ct => (restoreStep env ct).1), .ok ()) := by
  induction cts with
  | nil => rfl
  | cons c cs ih =>
    have hc := h c (by simp)
    show (match (restoreStep env c).2 with
          | some e => ((restoreStep env c).1, Except.error e)
          | none => ((restoreStep env c).1 ++ (restoreLoop env cs).1,
              (restoreLoop env cs).2)) = _
    rw [hc, ih (fun x hx => h x (by simp [hx]))]
    simp

/-- A successful restore step ends with the sidecar-directory creation
followed by the direct sidecar write, and nothing before them is a file
write. -/
theorem restoreStep_ok_shape (env : RestoreEnv) (ct : CacheType)
    (h : (restoreStep env ct).2 = none) :
    ∃ pre fpv, env.fp ct = Except.ok fpv ∧
      (restoreStep env ct).1 = pre
        ++ [RestoreEvent.mkdirAll (cachedFolderInfoPath env.homedir ct).parent.inner,
            RestoreEvent.writeFile (cachedFolderInfoPath env.homedir ct).inner
              (toJsonPretty ⟨(findPath env.homedir ct).inner, fpv⟩)] ∧
      (∀ e ∈ pre, getWriteEvent e = none) := by
  unfold restoreStep at h ⊢
  cases hex : env.folderExists ct <;> simp only [hex, Bool.false_eq_true, if_false, if_true,
    ite_true, ite_false, reduceIte] at h ⊢
  case false =>
    cases hres : env.restoreRes ct <;> simp only [hres] at h ⊢
    case error e => simp at h
    case ok hit =>
      cases hit <;> simp only [Bool.false_eq_true, if_false, if_true, ite_true, ite_false,
        reduceIte] at h ⊢
      case false =>
        cases hmk : env.mkdirRes (findPath env.homedir ct).inner <;> simp only [hmk] at h ⊢
        case error e => simp at h
        case ok =>
          cases hfp : env.fp ct <;> simp only [hfp] at h ⊢
          case error e => simp at h
          case ok fpv =>
            cases hmk2 : env.mkdirRes (cachedFolderInfoPath env.homedir ct).parent.inner <;>
              simp only [hmk2] at h ⊢
            case error e => simp at h
            case ok =>
              cases hwr : env.writeRes (cachedFolderInfoPath env.homedir ct).inner <;>
                simp only [hwr] at h ⊢
              case error e => simp at h
              case ok =>
                refine ⟨[.restoreRequest (buildCacheEntry ct (findPath env.homedir ct)
                    (env.nonce ct)),
                  .infoNoCacheEntry (friendlyName ct),
                  .mkdirAll (findPath env.homedir ct).inner], fpv, rfl, ?_, ?_⟩
                · simp
                · intro e he
                  simp only [List.mem_cons, List.mem_singleton, List.not_mem_nil] at he
                  rcases he with rfl | rfl | rfl | hfalse
                  · rfl
                  · rfl
                  · rfl
                  · cases hfalse
      case true =>
        cases hfp : env.fp ct <;> simp only [hfp] at h ⊢
        case error e => simp at h
        case ok fpv =>
          cases hmk2 : env.mkdirRes (cachedFolderInfoPath env.homedir ct).parent.inner <;>
            simp only [hmk2] at h ⊢
          case error e => simp at h
          case ok =>
            cases hwr : env.writeRes (cachedFolderInfoPath env.homedir ct).inner <;>
              simp only [hwr] at h ⊢
            case error e => simp at h
            case ok =>
              refine ⟨[.restoreRequest (buildCacheEntry ct (findPath env.homedir ct)
                  (env.nonce ct)),
                .infoRestored (friendlyName ct)], fpv, rfl, ?_, ?_⟩
              · simp
              · intro e he
                simp only [List.mem_cons, List.mem_singleton, List.not_mem_nil] at he
                rcases he with rfl | rfl | hfalse
                · rfl
                · rfl
                · cases hfalse
  case true =>
    cases hrm : env.rmRfRes ct <;> simp only [hrm] at h ⊢
    case error e => simp at h
    case ok =>
      cases hres : env.restoreRes ct <;> simp only [hres] at h ⊢
      case error e => simp at h
      case ok hit =>
        cases hit <;> simp only [Bool.false_eq_true, if_false, if_true, ite_true, ite_false,
          reduceIte] at h ⊢
        case false =>
          cases hmk : env.mkdirRes (findPath env.homedir ct).inner <;> simp only [hmk] at h ⊢
          case error e => simp at h
          case ok =>
            cases hfp : env.fp ct <;> simp only [hfp] at h ⊢
            case error e => simp at h
            case ok fpv =>
              cases hmk2 : env.mkdirRes (cachedFolderInfoPath env.homedir ct).parent.inner <;>
                simp only [hmk2] at h ⊢
              case error e => simp at h
              case ok =>
                cases hwr : env.writeRes (cachedFolderInfoPath env.homedir ct).inner <;>
                  simp only [hwr] at h ⊢
                case error e => simp at h
                case ok =>
                  refine ⟨[.warnDelete (findPath env.homedir ct).inner,
                    .rmRf (findPath env.homedir ct).inner,
                    .restoreRequest (buildCacheEntry ct (findPath env.homedir ct)
                      (env.nonce ct)),
                    .infoNoCacheEntry (friendlyName ct),
                    .mkdirAll (findPath env.homedir ct).inner], fpv, rfl, ?_, ?_⟩
                  · simp
                  · intro e he
                    simp only [List.mem_cons, List.mem_singleton, List.not_mem_nil] at he
                    rcases he with rfl | rfl | rfl | rfl | rfl | hfalse
                    · rfl
                    · rfl
                    · rfl
                    · rfl
                    · rfl
                    · cases hfalse
        case true =>
          cases hfp : env.fp ct <;> simp only [hfp] at h ⊢
          case error e => simp at h
          case ok fpv =>
            cases hmk2 : env.mkdirRes (cachedFolderInfoPath env.homedir ct).parent.inner <;>
              simp only [hmk2] at h ⊢
            case error e => simp at h
            case ok =>
              cases hwr : env.writeRes (cachedFolderInfoPath env.homedir ct).inner <;>
                simp only [hwr] at h ⊢
              case error e => simp at h
              case ok =>
                refine ⟨[.warnDelete (findPath env.homedir ct).inner,
                  .rmRf (findPath env.homedir ct).inner,
                  .restoreRequest (buildCacheEntry ct (findPath env.homedir ct)
                    (env.nonce ct)),
                  .infoRestored (friendlyName ct)], fpv, rfl, ?_, ?_⟩
                · simp
                · intro e he
                  simp only [List.mem_cons, List.mem_singleton, List.not_mem_nil] at he
                  rcases he with rfl | rfl | rfl | rfl | hfalse
                  · rfl
                  · rfl
                  · rfl
                  · rfl
                  · cases hfalse

/-- C7 counterexample: in a concrete successful restore run the sidecar
file is written by a single direct write event and the trace contains no
rename at all, so the write-temp-then-rename discipline the claim
describes does not happen. -/
theorem sidecar_write_not_atomic_counterexample :
    (restoreCargoCache wEnvRestore).2 = .ok () ∧
      RestoreEvent.writeFile (cachedFolderInfoPath "/root" CacheType.Indices).inner
          (toJsonPretty ⟨(findPath "/root" CacheType.Indices).inner, 42⟩)
        ∈ (restoreCargoCache wEnvRestore).1 ∧
      ((restoreCargoCache wEnvRestore).1.all (fun e => !(isRenameEvent e))) = true ∧
      ¬ ∃ tmp, RestoreEvent.rename tmp
          (cachedFolderInfoPath "/root" CacheType.Indices).inner
        ∈ (restoreCargoCache wEnvRestore).1 := by
  refine ⟨by decide, by decide, by decide, ?_⟩
  rintro ⟨tmp, hmem⟩
  have hall : ((restoreCargoCache wEnvRestore).1.all (fun e => !(isRenameEvent e))) = true := by
    decide
  rw [List.all_eq_true] at hall
  have := hall _ hmem
  simp [isRenameEvent] at this

/-- C7 amended: writing the sidecar record creates the parent directory
(recursive mkdir) and then writes the file with one direct write_file
call; no rename ever appears in a restore trace, so the write is not
performed atomically via a temporary file plus rename. -/
theorem sidecar_write_direct (env : RestoreEnv) (ct : CacheType) (cts : List CacheType) :
    ((restoreLoop env cts).1.all (fun e => !(isRenameEvent e))) = true ∧
      ((restoreStep env ct).2 = none →
        ∃ pre fpv, env.fp ct = Except.ok fpv ∧
          (restoreStep env ct).1 = pre
            ++ [RestoreEvent.mkdirAll (cachedFolderInfoPath env.homedir ct).parent.inner,
                RestoreEvent.writeFile (cachedFolderInfoPath env.homedir ct).inner
                  (toJsonPretty ⟨(findPath env.homedir ct).inner, fpv⟩)]) := by
  refine ⟨restoreLoop_no_rename env cts, fun h => ?_⟩
  obtain ⟨pre, fpv, h1, h2, _h3⟩ := restoreStep_ok_shape env ct h
  exact ⟨pre, fpv, h1, h2⟩

/-- Witness for C7's amended statement at the concrete restore
environment. -/
theorem sidecar_write_direct_witness :
    (restoreStep wEnvRestore CacheType.Indices).2 = none ∧
      ∃ pre fpv, wEnvRestore.fp CacheType.Indices = Except.ok fpv ∧
        (restoreStep wEnvRestore CacheType.Indices).1 = pre
          ++ [RestoreEvent.mkdirAll
                (cachedFolderInfoPath wEnvRestore.homedir CacheType.Indices).parent.inner,
              RestoreEvent.writeFile
                (cachedFolderInfoPath wEnvRestore.homedir CacheType.Indices).inner
                (toJsonPretty ⟨(findPath wEnvRestore.homedir CacheType.Indices).inner, fpv⟩)] :=
  ⟨by decide, (sidecar_write_direct wEnvRestore CacheType.Indices []).2 (by decide)⟩

/-- File writes of concatenated traces concatenate. -/
theorem sidecarWrites_append (l1 l2 : List RestoreEvent) :
    sidecarWrites (l1 ++ l2) = sidecarWrites l1 ++ sidecarWrites l2 :=
  List.filterMap_append l1 l2 getWriteEvent

/-- A successful restore step performs exactly one file write: the
serialized sidecar record at the segment's sidecar path. -/
theorem sidecarWrites_step (env : RestoreEnv) (ct : CacheType)
    (h : (restoreStep env ct).2 = none) :
    ∃ fpv, env.fp ct = Except.ok fpv ∧
      sidecarWrites (restoreStep env ct).1
        = [((cachedFolderInfoPath env.homedir ct).inner,
            toJsonPretty ⟨(findPath env.homedir ct).inner, fpv⟩)] := by
  obtain ⟨pre, fpv, h1, h2, h3⟩ := restoreStep_ok_shape env ct h
  refine ⟨fpv, h1, ?_⟩
  rw [h2]
  unfold sidecarWrites
  rw [List.filterMap_append, List.filterMap_eq_nil_iff.mpr h3]
  simp [getWriteEvent]

/-- Traces of segments other than ct write nothing at ct's sidecar
path. -/
theorem filter_writes_not_mem (env : RestoreEnv) (cs : List CacheType) (ct : CacheType)
    (hok : ∀ c ∈ cs, (restoreStep env c).2 = none) (hni : ct ∉ cs) :
    ((sidecarWrites (cs.flatMap (fun c => (restoreStep env c).1))).filter
      (fun pr => pr.1 = (cachedFolderInfoPath env.homedir ct).inner)) = [] := by
  induction cs with
  | nil => rfl
  | cons c cs2 ih =>
    rw [List.flatMap_cons, sidecarWrites_append, List.filter_append]
    obtain ⟨fpv, _hfp, hw⟩ := sidecarWrites_step env c (hok c (by simp))
    rw [hw]
    have hcc : c ≠ ct := fun h => hni (by simp [h])
    have hne := cachedFolderInfoPath_inj env.homedir c ct hcc
    rw [ih (fun x hx => hok x (by simp [hx])) (fun h => hni (by simp [h]))]
    simp [hne]

/-- Among the traces of a duplicate-free segment list, exactly one write
lands at ct's sidecar path: the serialized record of ct. -/
theorem filter_writes_mem (env : RestoreEnv) (cts : List CacheType) (hnd : cts.Nodup)
    (ct : CacheType) (hct : ct ∈ cts)
    (hok : ∀ c ∈ cts, (restoreStep env c).2 = none)
    (fpv : Nat) (hfp : env.fp ct = Except.ok fpv) :
    ((sidecarWrites (cts.flatMap (fun c => (restoreStep env c).1))).filter
      (fun pr => pr.1 = (cachedFolderInfoPath env.homedir ct).inner))
      = [((cachedFolderInfoPath env.homedir ct).inner,
          toJsonPretty ⟨(findPath env.homedir ct).inner, fpv⟩)] := by
  induction cts with
  | nil => cases hct
  | cons c cs ih =>
    rw [List.flatMap_cons, sidecarWrites_append, List.filter_append]
    rcases List.mem_cons.mp hct with rfl | hmem
    · obtain ⟨fpv2, hfp2, hw⟩ := sidecarWrites_step env ct (hok ct (by simp))
      obtain rfl : fpv = fpv2 := Except.ok.inj (hfp.symm.trans hfp2)
      rw [hw]
      have hni : ct ∉ cs := (List.nodup_cons.mp hnd).1
      rw [filter_writes_not_mem env cs ct (fun x hx => hok x (by simp [hx])) hni]
      simp
    · have hcc : c ≠ ct := by
        rintro rfl
        exact (List.nodup_cons.mp hnd).1 hmem
      obtain ⟨fpv2, _hfp2, hw⟩ := sidecarWrites_step env c (hok c (by simp))
      rw [hw]
      have hne := cachedFolderInfoPath_inj env.homedir c ct hcc
      rw [ih (List.nodup_cons.mp hnd).2 hmem (fun x hx => hok x (by simp [hx]))]
      simp [hne]

/-- The selected segment list of either phase is duplicate-free. -/
theorem getTypesToCache_nodup (setEnum : List CacheType → List CacheType)
    (henum : ValidEnum setEnum) (raw : Option String) (cts : List CacheType)
    (h : getTypesToCache setEnum raw = .ok cts) : cts.Nodup := by
  unfold getTypesToCache at h
  cases hc : coreSelect raw with
  | error e => rw [hc] at h; cases h
  | ok l =>
    rw [hc] at h
    have hl := coreSelect_nodup raw l hc
    obtain rfl : setEnum l = cts := Except.ok.inj h
    exact ((henum l hl).nodup_iff).mpr hl

/-- C5: a successful restore phase writes, for every selected segment,
exactly one sidecar file at
home/.cache/github-rust-actions/cached_folder_info/{short_name}.toml,
containing the segment's folder path (absolute whenever the home
directory is absolute) and its fingerprint, independently of whether the
blob-cache restore hit or missed. -/
theorem restore_sidecar_unique (env : RestoreEnv) (cts : List CacheType)
    (henum : ValidEnum env.setEnum)
    (hsel : getTypesToCache env.setEnum env.rawInput = .ok cts)
    (hok : ∀ ct ∈ cts, (restoreStep env ct).2 = none) :
    (restoreCargoCache env).2 = .ok () ∧
      ∀ ct ∈ cts, ∃ fpv, env.fp ct = Except.ok fpv ∧
        ((sidecarWrites (restoreCargoCache env).1).filter
            (fun pr => pr.1 = (cachedFolderInfoPath env.homedir ct).inner))
          = [((cachedFolderInfoPath env.homedir ct).inner,
              toJsonPretty ⟨(findPath env.homedir ct).inner, fpv⟩)] ∧
        (pathIsAbsolute env.homedir = true →
          pathIsAbsolute (findPath env.homedir ct).inner = true) := by
  have hloop : restoreCargoCache env
      = (cts.flatMap (fun ct => (restoreStep env ct).1), .ok ()) := by
    unfold restoreCargoCache
    rw [hsel]
    exact restoreLoop_all_ok env cts hok
  have hnd := getTypesToCache_nodup env.setEnum henum env.rawInput cts hsel
  refine ⟨by rw [hloop], fun ct hct => ?_⟩
  obtain ⟨fpv, hfp, _⟩ := sidecarWrites_step env ct (hok ct hct)
  refine ⟨fpv, hfp, ?_, fun habs => findPath_abs env.homedir ct habs⟩
  rw [hloop]
  exact filter_writes_mem env cts hnd ct hct hok fpv hfp

/-- Witness for C5 at the concrete restore environment: selection,
per-segment success, and the phase verdict are all discharged
concretely. -/
theorem restore_sidecar_unique_witness :
    getTypesToCache wEnvRestore.setEnum wEnvRestore.rawInput = .ok registryOrder ∧
      (∀ ct ∈ registryOrder, (restoreStep wEnvRestore ct).2 = none) ∧
      (restoreCargoCache wEnvRestore).2 = .ok () :=
  ⟨by decide, by decide,
    (restore_sidecar_unique wEnvRestore registryOrder (fun l _ => List.Perm.refl l)
        (by decide) (by decide)).1⟩

/-- Witness for C4's amended statement at the all-zero nonce. -/
theorem cache_key_shape_witness :
    (List.replicate 8 (0 : Nat)).length = 8 ∧
      (buildCacheEntry CacheType.Crates (Path.fromStr "/r") (List.replicate 8 0)).primaryKey
        = friendlyName CacheType.Crates ++ " - " ++ base64UrlSafe (List.replicate 8 0) :=
  ⟨by decide, (cache_key_shape CacheType.Crates (Path.fromStr "/r") (List.replicate 8 0)
      (by decide)).1⟩

end RustWasmAction
